import Mathlib

/-!
Verification development for the emotion-understanding evaluation harness.

The repository contains two near-identical driver scripts:
`src/main.py` (GPT backend, `query_gpt`) and
`src/agir_emotion_master_test.py` (local API backend, `query_agir_api`).
This file gives a shallow embedding of their pure control flow and data
transformations:

* JSON values are modelled by `JVal` (objects as ordered association lists,
  mirroring insertion-ordered Python dicts; numeric literals are kept as
  their lexemes).  `pyJsonLoads` models `json.loads` restricted to the
  escape-free fragment used throughout: strings are read up to the next
  `"` character, and number lexing is a maximal munch of number characters.
  Every theorem below that quantifies over JSON texts restricts string
  contents and number lexemes with `jvalOkB`, on which this parser agrees
  with Python's.
* `extractAnswer` embeds the layered extraction of
  `query_agir_api` (lines 184-221): whole-text parse when the stripped
  text starts with `\x7b` and ends with `\x7d`, otherwise the regex search for
  an object-shaped substring, otherwise the two independent field regexes.
* `agirGo`/`gptGo` embed the two retry loops as functions of an oracle
  giving the backend's response for each attempt; wall-clock sleeping and
  logging are outside the model.
* `runExec` embeds the shared `run_test` loop, `evaluate_responses` the
  scorer, `calculate_statistics` the aggregate statistics, and
  `agirGoDir`/`gptChooseDir` the output-directory selection of the two
  drivers.
-/

/-! ### Python string helpers -/

/-- ASCII whitespace stripped by Python `str.strip()` (also the characters
matched by the regex class `\s` on ASCII text). -/
def pyWsB (c : Char) : Bool :=
  decide (c = ' ') || decide (c = '\t') || decide (c = '\n') || decide (c = '\r') ||
  decide (c = '\x0b') || decide (c = '\x0c')

/-- Python `str.strip()` on the character list of a string. -/
def pyStripC (cs : List Char) : List Char :=
  ((cs.dropWhile pyWsB).reverse.dropWhile pyWsB).reverse

/-- Python `not s.strip()`: the stripped text is empty. -/
def stripEmptyB (s : String) : Bool :=
  (pyStripC s.data).isEmpty

/-- Python `s.startswith(c)` for a one-character argument. -/
def headIs (cs : List Char) (c : Char) : Bool :=
  match cs with
  | [] => false
  | x :: _ => decide (x = c)

/-- Python `s.endswith(c)` for a one-character argument. -/
def lastIs (cs : List Char) (c : Char) : Bool :=
  headIs cs.reverse c

/-- Boolean list prefix test (used by the regex models). -/
def isPrefixOfB : List Char → List Char → Bool
  | [], _ => true
  | _ :: _, [] => false
  | a :: as, b :: bs => decide (a = b) && isPrefixOfB as bs

/-- Whether `a` occurs as a contiguous substring of the second argument. -/
def hasInfixB (a : List Char) : List Char → Bool
  | [] => a.isEmpty
  | c :: rest => isPrefixOfB a (c :: rest) || hasInfixB a rest

/-- Drop everything up to and including the first occurrence of `a`;
`none` when `a` does not occur. -/
def dropThroughFirst (a : List Char) : List Char → Option (List Char)
  | [] => if a.isEmpty then some [] else none
  | c :: rest =>
    if isPrefixOfB a (c :: rest) then some ((c :: rest).drop a.length)
    else dropThroughFirst a rest

/-- Match a literal at the start of the input, returning the remainder. -/
def dropLit : List Char → List Char → Option (List Char)
  | [], cs => some cs
  | _ :: _, [] => none
  | p :: ps, c :: cs => if c = p then dropLit ps cs else none

/-! ### JSON data model -/

/-- JSON values as produced by `json.loads`: objects are insertion-ordered
association lists (Python dicts), numbers are kept as their lexemes. -/
inductive JVal where
  | str (s : String)
  | num (s : String)
  | bool (b : Bool)
  | null
  | arr (xs : List JVal)
  | obj (kvs : List (String × JVal))

mutual
/-- Decidable equality on `JVal` (the nested inductive prevents deriving). -/
def jvalDecEq : (a b : JVal) → Decidable (a = b)
  | .str a, .str b =>
    match decEq a b with
    | isTrue h => isTrue (by rw [h])
    | isFalse h => isFalse (fun he => h (JVal.str.inj he))
  | .num a, .num b =>
    match decEq a b with
    | isTrue h => isTrue (by rw [h])
    | isFalse h => isFalse (fun he => h (JVal.num.inj he))
  | .bool a, .bool b =>
    match decEq a b with
    | isTrue h => isTrue (by rw [h])
    | isFalse h => isFalse (fun he => h (JVal.bool.inj he))
  | .null, .null => isTrue rfl
  | .arr xs, .arr ys =>
    match jvalDecEqL xs ys with
    | isTrue h => isTrue (by rw [h])
    | isFalse h => isFalse (fun he => h (JVal.arr.inj he))
  | .obj xs, .obj ys =>
    match jvalDecEqO xs ys with
    | isTrue h => isTrue (by rw [h])
    | isFalse h => isFalse (fun he => h (JVal.obj.inj he))
  | .str _, .num _ => isFalse (fun h => JVal.noConfusion h)
  | .str _, .bool _ => isFalse (fun h => JVal.noConfusion h)
  | .str _, .null => isFalse (fun h => JVal.noConfusion h)
  | .str _, .arr _ => isFalse (fun h => JVal.noConfusion h)
  | .str _, .obj _ => isFalse (fun h => JVal.noConfusion h)
  | .num _, .str _ => isFalse (fun h => JVal.noConfusion h)
  | .num _, .bool _ => isFalse (fun h => JVal.noConfusion h)
  | .num _, .null => isFalse (fun h => JVal.noConfusion h)
  | .num _, .arr _ => isFalse (fun h => JVal.noConfusion h)
  | .num _, .obj _ => isFalse (fun h => JVal.noConfusion h)
  | .bool _, .str _ => isFalse (fun h => JVal.noConfusion h)
  | .bool _, .num _ => isFalse (fun h => JVal.noConfusion h)
  | .bool _, .null => isFalse (fun h => JVal.noConfusion h)
  | .bool _, .arr _ => isFalse (fun h => JVal.noConfusion h)
  | .bool _, .obj _ => isFalse (fun h => JVal.noConfusion h)
  | .null, .str _ => isFalse (fun h => JVal.noConfusion h)
  | .null, .num _ => isFalse (fun h => JVal.noConfusion h)
  | .null, .bool _ => isFalse (fun h => JVal.noConfusion h)
  | .null, .arr _ => isFalse (fun h => JVal.noConfusion h)
  | .null, .obj _ => isFalse (fun h => JVal.noConfusion h)
  | .arr _, .str _ => isFalse (fun h => JVal.noConfusion h)
  | .arr _, .num _ => isFalse (fun h => JVal.noConfusion h)
  | .arr _, .bool _ => isFalse (fun h => JVal.noConfusion h)
  | .arr _, .null => isFalse (fun h => JVal.noConfusion h)
  | .arr _, .obj _ => isFalse (fun h => JVal.noConfusion h)
  | .obj _, .str _ => isFalse (fun h => JVal.noConfusion h)
  | .obj _, .num _ => isFalse (fun h => JVal.noConfusion h)
  | .obj _, .bool _ => isFalse (fun h => JVal.noConfusion h)
  | .obj _, .null => isFalse (fun h => JVal.noConfusion h)
  | .obj _, .arr _ => isFalse (fun h => JVal.noConfusion h)

def jvalDecEqL : (a b : List JVal) → Decidable (a = b)
  | [], [] => isTrue rfl
  | [], _ :: _ => isFalse (fun h => List.noConfusion h)
  | _ :: _, [] => isFalse (fun h => List.noConfusion h)
  | x :: xs, y :: ys =>
    match jvalDecEq x y with
    | isFalse h => isFalse (fun he => h (List.cons.inj he).1)
    | isTrue h1 =>
      match jvalDecEqL xs ys with
      | isTrue h2 => isTrue (by rw [h1, h2])
      | isFalse h => isFalse (fun he => h (List.cons.inj he).2)

def jvalDecEqO : (a b : List (String × JVal)) → Decidable (a = b)
  | [], [] => isTrue rfl
  | [], _ :: _ => isFalse (fun h => List.noConfusion h)
  | _ :: _, [] => isFalse (fun h => List.noConfusion h)
  | (k, v) :: xs, (k2, v2) :: ys =>
    match decEq k k2 with
    | isFalse h => isFalse (fun he => h (congrArg (fun l => (l.headD ("", JVal.null)).1) he))
    | isTrue hk =>
      match jvalDecEq v v2 with
      | isFalse h => isFalse (fun he => h (congrArg (fun l => (l.headD ("", JVal.null)).2) he))
      | isTrue hv =>
        match jvalDecEqO xs ys with
        | isTrue h2 => isTrue (by rw [hk, hv, h2])
        | isFalse h => isFalse (fun he => h (List.cons.inj he).2)
end

instance : DecidableEq JVal := jvalDecEq

/-- A Python dict holding JSON data. -/
abbrev Dict := List (String × JVal)

/-- Dict lookup; a later binding for the same key wins, matching repeated
dict assignment in Python. -/
def jget : Dict → String → Option JVal
  | [], _ => none
  | (k', v) :: rest, k =>
    match jget rest k with
    | some w => some w
    | none => if k' = k then some v else none

/-- Python truthiness of a JSON value (`if api_response:`).  For number
lexemes this tests for a nonzero mantissa digit; it is only consulted on
extraction results, which are always objects. -/
def pyTruthy : JVal → Bool
  | .str s => !s.data.isEmpty
  | .num s => s.data.any (fun c => c.isDigit && decide (c ≠ '0'))
  | .bool b => b
  | .null => false
  | .arr xs => !xs.isEmpty
  | .obj kvs => !kvs.isEmpty

/-! ### Serialization (the text of a JSON value, `json.dumps` layout) -/

mutual
/-- The canonical text of a JSON value, with `json.dumps`'s default
separators. -/
def serValC : JVal → List Char
  | .str s => '"' :: (s.data ++ ['"'])
  | .num s => s.data
  | .bool true => ['t', 'r', 'u', 'e']
  | .bool false => ['f', 'a', 'l', 's', 'e']
  | .null => ['n', 'u', 'l', 'l']
  | .arr [] => ['[', ']']
  | .arr (x :: xs) => '[' :: (serValC x ++ (serElemsC xs ++ [']']))
  | .obj [] => ['{', '}']
  | .obj (kv :: kvs) => '{' :: (serKVC kv ++ (serMembersC kvs ++ ['}']))

def serElemsC : List JVal → List Char
  | [] => []
  | x :: xs => ',' :: ' ' :: (serValC x ++ serElemsC xs)

def serMembersC : List (String × JVal) → List Char
  | [] => []
  | kv :: kvs => ',' :: ' ' :: (serKVC kv ++ serMembersC kvs)

def serKVC : String × JVal → List Char
  | (k, v) => '"' :: (k.data ++ ('"' :: ':' :: ' ' :: serValC v))
end

/-- The canonical text of a JSON value, as a string. -/
def serStr (v : JVal) : String := ⟨serValC v⟩

/-! ### Validity of serializable values -/

/-- Characters allowed in modelled JSON strings: no quote, no backslash,
no control characters (so no escape sequences are ever needed). -/
def strChOkB (c : Char) : Bool :=
  decide (c ≠ '"') && decide (c ≠ '\\') && decide (32 ≤ c.toNat)

/-- A character that may occur in a JSON number lexeme. -/
def numCharB (c : Char) : Bool :=
  c.isDigit || decide (c = '-') || decide (c = '+') || decide (c = '.') ||
  decide (c = 'e') || decide (c = 'E')

/-- One or more digits followed by the remainder. -/
def numDigits1 : List Char → Option (List Char)
  | [] => none
  | d :: r => if d.isDigit then some (r.dropWhile Char.isDigit) else none

/-- Integer part of the JSON number grammar: `0 | [1-9][0-9]*`. -/
def numIntRest : List Char → Option (List Char)
  | [] => none
  | c :: r =>
    if c = '0' then some r
    else if c.isDigit then some (r.dropWhile Char.isDigit) else none

/-- Optional fraction part of the JSON number grammar. -/
def numFracRest : List Char → Option (List Char)
  | [] => some []
  | c :: rest => if c = '.' then numDigits1 rest else some (c :: rest)

/-- Exponent digits with an optional leading sign. -/
def numExpAfterSign : List Char → Option (List Char)
  | [] => none
  | s :: r => if s = '+' || s = '-' then numDigits1 r else numDigits1 (s :: r)

/-- Optional exponent part of the JSON number grammar. -/
def numExpRest : List Char → Option (List Char)
  | [] => some []
  | c :: rest =>
    if c = 'e' || c = 'E' then numExpAfterSign rest
    else some (c :: rest)

/-- The unsigned part of the JSON number grammar: `int frac? exp?`,
consuming the whole lexeme. -/
def numBodyOkB (l : List Char) : Bool :=
  match numIntRest l with
  | none => false
  | some r1 =>
    match numFracRest r1 with
    | none => false
    | some r2 =>
      match numExpRest r2 with
      | none => false
      | some r3 => r3.isEmpty

/-- The full JSON number grammar `-? int frac? exp?` (Python's
`json.loads` number syntax). -/
def numOkB (s : List Char) : Bool :=
  match s with
  | [] => false
  | c :: r => if c = '-' then numBodyOkB r else numBodyOkB (c :: r)

/-- Whether the key list of an object binds a given key. -/
def keyMemB (k : String) : List (String × JVal) → Bool
  | [] => false
  | kv :: kvs => decide (kv.1 = k) || keyMemB k kvs

mutual
/-- Validity of a JSON value for the escape-free fragment: string contents
and keys use `strChOkB`, number lexemes follow the JSON grammar, and
object keys are distinct (Python dicts). -/
def jvalOkB : JVal → Bool
  | .str s => s.data.all strChOkB
  | .num s => numOkB s.data
  | .bool _ => true
  | .null => true
  | .arr xs => jvalOkL xs
  | .obj kvs => jvalOkO kvs

def jvalOkL : List JVal → Bool
  | [] => true
  | x :: xs => jvalOkB x && jvalOkL xs

def jvalOkO : List (String × JVal) → Bool
  | [] => true
  | kv :: kvs => kv.1.data.all strChOkB && jvalOkB kv.2 && !keyMemB kv.1 kvs && jvalOkO kvs
end

mutual
/-- Structural size of a JSON value, used as parser fuel. -/
def jsize : JVal → Nat
  | .arr xs => jsizeL xs + 1
  | .obj kvs => jsizeO kvs + 1
  | _ => 1

def jsizeL : List JVal → Nat
  | [] => 0
  | x :: xs => jsize x + jsizeL xs + 1

def jsizeO : List (String × JVal) → Nat
  | [] => 0
  | kv :: kvs => jsize kv.2 + jsizeO kvs + 1
end

/-! ### The JSON parser (model of `json.loads`) -/

/-- Whitespace skipped between JSON tokens (Python's `json` module skips
exactly space, tab, newline and carriage return). -/
def jsonWsB (c : Char) : Bool :=
  decide (c = ' ') || decide (c = '\t') || decide (c = '\n') || decide (c = '\r')

/-- Skip inter-token whitespace. -/
def skipWs (cs : List Char) : List Char := cs.dropWhile jsonWsB

/-- A continuation after a serialized value that cannot extend a number
lexeme (used by the parser round-trip statements). -/
def restOkB : List Char → Bool
  | [] => true
  | c :: _ => !numCharB c

/-- Read a string body up to the closing quote (escape-free fragment). -/
def parseStrBody : List Char → Option (List Char × List Char)
  | [] => none
  | c :: rest =>
    if c = '"' then some ([], rest)
    else
      match parseStrBody rest with
      | some (s, r) => some (c :: s, r)
      | none => none

mutual
/-- Parse one JSON value (fuel-indexed recursive descent). -/
def parseVal : Nat → List Char → Option (JVal × List Char)
  | 0, _ => none
  | _ + 1, [] => none
  | fuel + 1, c :: rest =>
    if c = '{' then
      match skipWs rest with
      | [] => none
      | c1 :: r2 =>
        if c1 = '}' then some (.obj [], r2)
        else
          match parseMembers fuel (c1 :: r2) with
          | some (kvs, r3) => some (.obj kvs, r3)
          | none => none
    else if c = '[' then
      match skipWs rest with
      | [] => none
      | c1 :: r2 =>
        if c1 = ']' then some (.arr [], r2)
        else
          match parseElems fuel (c1 :: r2) with
          | some (xs, r3) => some (.arr xs, r3)
          | none => none
    else if c = '"' then
      match parseStrBody rest with
      | some (s, r) => some (.str ⟨s⟩, r)
      | none => none
    else if c = 't' then
      if rest.take 3 = ['r', 'u', 'e'] then some (.bool true, rest.drop 3) else none
    else if c = 'f' then
      if rest.take 4 = ['a', 'l', 's', 'e'] then some (.bool false, rest.drop 4) else none
    else if c = 'n' then
      if rest.take 3 = ['u', 'l', 'l'] then some (.null, rest.drop 3) else none
    else if c.isDigit || c = '-' then
      some (.num ⟨(c :: rest).takeWhile numCharB⟩, (c :: rest).dropWhile numCharB)
    else none

/-- Parse one or more `"key": value` members followed by `}`. -/
def parseMembers : Nat → List Char → Option (List (String × JVal) × List Char)
  | 0, _ => none
  | _ + 1, [] => none
  | fuel + 1, c :: rest =>
    if c = '"' then
      match parseStrBody rest with
      | none => none
      | some (k, r1) =>
        match skipWs r1 with
        | [] => none
        | c2 :: r2 =>
          if c2 = ':' then
            match parseVal fuel (skipWs r2) with
            | none => none
            | some (v, r3) =>
              match skipWs r3 with
              | [] => none
              | c3 :: r4 =>
                if c3 = ',' then
                  match parseMembers fuel (skipWs r4) with
                  | some (kvs, r5) => some ((⟨k⟩, v) :: kvs, r5)
                  | none => none
                else if c3 = '}' then some ([(⟨k⟩, v)], r4)
                else none
          else none
    else none

/-- Parse one or more array elements followed by `]`. -/
def parseElems : Nat → List Char → Option (List JVal × List Char)
  | 0, _ => none
  | fuel + 1, cs =>
    match parseVal fuel cs with
    | none => none
    | some (v, r1) =>
      match skipWs r1 with
      | [] => none
      | c2 :: r2 =>
        if c2 = ',' then
          match parseElems fuel (skipWs r2) with
          | some (xs, r3) => some (v :: xs, r3)
          | none => none
        else if c2 = ']' then some ([v], r2)
        else none
end

/-- Model of `json.loads` on a character list: parse one value surrounded
by whitespace and require the input to be exhausted. -/
def pyJsonLoadsC (cs0 : List Char) : Option JVal :=
  let cs := skipWs cs0
  match parseVal (cs.length + 1) cs with
  | some (v, r) => if (skipWs r).isEmpty then some v else none
  | none => none

/-- Model of `json.loads` on a string. -/
def pyJsonLoads (s : String) : Option JVal := pyJsonLoadsC s.data

/-! ### The answer extractor (`query_agir_api`, lines 184-221) -/

/-- The literal `"emotion"` (with quotes) appearing in both regexes. -/
def qEmotion : List Char := "\"emotion\"".data

/-- The literal `"cause"` (with quotes) appearing in both regexes. -/
def qCause : List Char := "\"cause\"".data

/-- Attempt of the regex `LIT\s*:\s*"([^"]*)"` at the start of the input,
returning the capture group.  `\s*` is greedy and `:` / `"` are not
whitespace, so the match is deterministic. -/
def matchFieldAt (lit : List Char) (cs : List Char) : Option (List Char) :=
  match dropLit lit cs with
  | none => none
  | some r1 =>
    match r1.dropWhile pyWsB with
    | ':' :: r3 =>
      match r3.dropWhile pyWsB with
      | '"' :: r5 =>
        match r5.dropWhile (fun c => decide (c ≠ '"')) with
        | '"' :: _ => some (r5.takeWhile (fun c => decide (c ≠ '"')))
        | _ => none
      | _ => none
    | _ => none

/-- `re.search` for `LIT\s*:\s*"([^"]*)"`: leftmost match wins. -/
def fieldSearch (lit : List Char) : List Char → Option (List Char)
  | [] => none
  | c :: rest =>
    match matchFieldAt lit (c :: rest) with
    | some v => some v
    | none => fieldSearch lit rest

/-- Attempt of the regex `\x7b[^}]*"emotion"[^}]*"cause"[^}]*\x7d` at the start
of the input.  Because the interior classes exclude `\x7d`, a match starting
at a `\x7b` must end at the first following `\x7d`, and exists iff the interior
contains `"emotion"` followed later by `"cause"` (checking the first
`"emotion"` occurrence suffices). -/
def objMatchAt (cs : List Char) : Option (List Char) :=
  match cs with
  | [] => none
  | c :: rest =>
    if c = '{' then
      match rest.dropWhile (fun ch => decide (ch ≠ '}')) with
      | [] => none
      | c2 :: _ =>
        if c2 = '}' then
          match dropThroughFirst qEmotion (rest.takeWhile (fun ch => decide (ch ≠ '}'))) with
          | some tail =>
            if hasInfixB qCause tail then
              some ('{' :: (rest.takeWhile (fun ch => decide (ch ≠ '}')) ++ ['}']))
            else none
          | none => none
        else none
    else none

/-- `re.search` for the object-shaped pattern: leftmost match wins. -/
def objSearch : List Char → Option (List Char)
  | [] => none
  | c :: rest =>
    match objMatchAt (c :: rest) with
    | some m => some m
    | none => objSearch rest

/-- The layered answer extraction of `query_agir_api` on a non-empty body:
strip; parse whole if delimited by braces; otherwise parse the regex-found
object substring; otherwise assemble the pair from the two field regexes.
`none` models the raised `JSONDecodeError` (including a failed
`json.loads` in the first two layers). -/
def extractAnswer (raw : String) : Option JVal :=
  let t := pyStripC raw.data
  if headIs t '{' && lastIs t '}' then pyJsonLoadsC t
  else
    match objSearch t with
    | some sub => pyJsonLoadsC sub
    | none =>
      match fieldSearch qEmotion t, fieldSearch qCause t with
      | some e, some c => some (.obj [("emotion", .str ⟨e⟩), ("cause", .str ⟨c⟩)])
      | _, _ => none

/-! ### The two retry loops -/

/-- Per-attempt backend behaviour seen by `query_agir_api`:
a 200 response with `choices[0].text = body`, a 200 response without
usable choices (including an unparseable response body), a non-200
status, or a network-level exception (timeout / connection / request). -/
inductive ApiResp where
  | ok (body : String)
  | okNoChoices
  | httpErr
  | netErr
deriving DecidableEq

/-- Per-attempt backend behaviour seen by `query_gpt`: a response with
`choices[0].message.content = content`, a response without choices, or an
exception raised by the client call. -/
inductive GptResp where
  | ok (content : String)
  | noChoices
  | exn
deriving DecidableEq

/-- Terminal outcome of a query call: a parsed answer, `sys.exit(1)`, or
falling off the loop returning `None`. -/
inductive QueryOutcome where
  | success (v : JVal)
  | exit1
  | noneRet
deriving DecidableEq

/-- The retry loop of `query_agir_api` (lines 141-288): `attempt` is the
current index, `remaining` the number of attempts left (`retries - attempt`);
`remaining = 1` is the final attempt (`attempt = retries - 1`). -/
def agirGo (resp : Nat → ApiResp) : Nat → Nat → QueryOutcome
  | _, 0 => .noneRet
  | attempt, remaining + 1 =>
    match resp attempt with
    | .ok body =>
      if stripEmptyB body then
        if remaining = 0 then .exit1 else agirGo resp (attempt + 1) remaining
      else
        match extractAnswer body with
        | some v => .success v
        | none => if remaining = 0 then .exit1 else agirGo resp (attempt + 1) remaining
    | .okNoChoices => if remaining = 0 then .exit1 else agirGo resp (attempt + 1) remaining
    | .httpErr => if remaining = 0 then .exit1 else agirGo resp (attempt + 1) remaining
    | .netErr => if remaining = 0 then .exit1 else agirGo resp (attempt + 1) remaining

/-- `query_agir_api(prompt, retries)` as a function of the response oracle. -/
def agirQuery (retries : Nat) (resp : Nat → ApiResp) : QueryOutcome :=
  agirGo resp 0 retries

/-- The `# Parse JSON or exit` phase of `query_gpt` (lines 170-188): an
empty content string exits, a JSON-parse failure exits, otherwise the
parsed value is returned. -/
def gptParsePhase (content : String) : QueryOutcome :=
  if content.data.isEmpty then .exit1
  else
    match pyJsonLoads content with
    | some v => .success v
    | none => .exit1

/-- The retry loop of `query_gpt` (lines 104-197).  On empty content with
attempts remaining, only the `o4-mini` model retries (with a simplified
prompt — prompt rewriting is folded into the oracle); every other model
falls through to the parse phase.  A missing-choices response exits
immediately.  Exceptions from the client call are retried. -/
def gptGo (model : String) (resp : Nat → GptResp) : Nat → Nat → QueryOutcome
  | _, 0 => .noneRet
  | attempt, remaining + 1 =>
    match resp attempt with
    | .ok content =>
      if stripEmptyB content then
        if remaining = 0 then .exit1
        else if model = "o4-mini" then gptGo model resp (attempt + 1) remaining
        else gptParsePhase content
      else gptParsePhase content
    | .noChoices => .exit1
    | .exn => if remaining = 0 then .exit1 else gptGo model resp (attempt + 1) remaining

/-- `query_gpt(prompt, retries)` as a function of the response oracle. -/
def gptQuery (model : String) (retries : Nat) (resp : Nat → GptResp) : QueryOutcome :=
  gptGo model resp 0 retries

/-! ### Scoring and statistics -/

/-- One line of the results file (`evaluate_responses`'s return value). -/
structure EvalRecord where
  qid : JVal
  scenario : JVal
  subject : JVal
  true_emotion : JVal
  predicted_emotion : JVal
  emotion_correct : Bool
  true_cause : JVal
  predicted_cause : JVal
  cause_correct : Bool
  both_correct : Bool
deriving DecidableEq

/-- `evaluate_responses(api_response, item)` (identical in both drivers):
the ground-truth fields `emotion_label`, `cause_label`, `qid`, `scenario`
and `subject` are accessed with `item[...]` and raise `KeyError` when
missing (modelled by `none`); the predictions use `.get(..., "")` and
default to the empty string; a non-dict `api_response` raises
`AttributeError` (also `none`). -/
def evaluate_responses (api_response : JVal) (item : Dict) : Option EvalRecord :=
  match jget item "emotion_label", jget item "cause_label" with
  | some te, some tc =>
    match api_response with
    | .obj kvs =>
      let pe := (jget kvs "emotion").getD (.str "")
      let pc := (jget kvs "cause").getD (.str "")
      let ec := decide (pe = te)
      let cc := decide (pc = tc)
      match jget item "qid", jget item "scenario", jget item "subject" with
      | some q, some sc, some su =>
        some ⟨q, sc, su, te, pe, ec, tc, pc, cc, ec && cc⟩
      | _, _, _ => none
    | _ => none
  | _, _ => none

/-- The aggregate statistics returned by `calculate_statistics`. -/
structure Stats where
  total_items : Nat
  emotion_accuracy : ℚ
  cause_accuracy : ℚ
  both_correct_accuracy : ℚ
deriving DecidableEq

/-- `calculate_statistics` over the parsed lines of the results file
(identical in both drivers): counts of true flags divided by the total,
with `0` accuracies when there are no records. -/
def calculate_statistics (results : List EvalRecord) : Stats :=
  let total := results.length
  let emotion_correct := (results.filter (·.emotion_correct)).length
  let cause_correct := (results.filter (·.cause_correct)).length
  let both_correct := (results.filter (·.both_correct)).length
  { total_items := total
    emotion_accuracy := if total > 0 then (emotion_correct : ℚ) / (total : ℚ) else 0
    cause_accuracy := if total > 0 then (cause_correct : ℚ) / (total : ℚ) else 0
    both_correct_accuracy := if total > 0 then (both_correct : ℚ) / (total : ℚ) else 0 }

/-! ### The run loop (`run_test`, identical in both drivers) -/

/-- Extract a Python list of strings (needed by `", ".join`); any
non-string element raises `TypeError`. -/
def strList? : List JVal → Option (List String)
  | [] => some []
  | .str s :: rest => (strList? rest).map (s :: ·)
  | _ :: _ => none

/-- Python `", ".join`. -/
def pyJoin (sep : String) : List String → String
  | [] => ""
  | [x] => x
  | x :: xs => x ++ sep ++ pyJoin sep xs

/-- Rendering of a JSON value inside an f-string.  Strings render as
themselves; the rendering of non-string values is a loose stand-in (no
claim depends on prompt text). -/
def pyStr : JVal → String
  | .str s => s
  | v => serStr v

/-- `create_prompt(item)`: accesses `scenario`, `subject`,
`emotion_choices` and `cause_choices` (raising `KeyError` when missing)
and joins the choice lists (raising `TypeError` on non-string elements). -/
def create_prompt (item : Dict) : Option String :=
  match jget item "scenario", jget item "subject",
        jget item "emotion_choices", jget item "cause_choices" with
  | some sc, some su, some ecs, some ccs =>
    match ecs, ccs with
    | .arr el, .arr cl =>
      match strList? el, strList? cl with
      | some els, some cls =>
        some ("Given the following scenario, identify the emotion of the subject and the cause of that emotion.\n\nScenario: "
          ++ pyStr sc ++ "\n\nSubject: " ++ pyStr su ++ "\n\nEmotion choices: "
          ++ pyJoin ", " els ++ "\n\nCause choices: " ++ pyJoin ", " cls
          ++ "\n\nProvide your answer in JSON format with two fields: \"emotion\" and \"cause\".\n")
      | _, _ => none
    | _, _ => none
  | _, _, _, _ => none

/-- Persistent state of a run: the lines of the results file and the
`processed_ids` list of the progress ledger. -/
structure RunState where
  results : List EvalRecord
  ledger : List JVal
deriving DecidableEq

/-- How a run of the loop ended: completed the item list, died with an
uncaught exception (`KeyError` / `TypeError` / `AttributeError`), or was
terminated by `sys.exit(1)` inside the query. -/
inductive RunEnd where
  | completed
  | crashed
  | exited
deriving DecidableEq

/-- The per-item loop of `run_test` (lines 331-341 / 240-250), with the
query call abstracted by `qf` from the prompt text: on success the result
line is appended and only then is the ledger rewritten with the extended
id list; a falsy or `None` answer skips the item (logging `item["qid"]`);
`sys.exit(1)` terminates the run.  Returns the last persisted state. -/
def runExec (qf : String → QueryOutcome) : List Dict → RunState → RunState × RunEnd
  | [], st => (st, .completed)
  | item :: rest, st =>
    match create_prompt item with
    | none => (st, .crashed)
    | some prompt =>
      match qf prompt with
      | .exit1 => (st, .exited)
      | .noneRet =>
        match jget item "qid" with
        | none => (st, .crashed)
        | some _ => runExec qf rest st
      | .success v =>
        if pyTruthy v then
          match evaluate_responses v item with
          | none => (st, .crashed)
          | some rec =>
            match jget item "qid" with
            | none => (st, .crashed)
            | some qid =>
              runExec qf rest ⟨st.results ++ [rec], st.ledger ++ [qid]⟩
        else
          match jget item "qid" with
          | none => (st, .crashed)
          | some _ => runExec qf rest st

/-- The ledger invariant: every result line's qid appears in the ledger. -/
def ledgerInv (st : RunState) : Prop :=
  ∀ r ∈ st.results, r.qid ∈ st.ledger

/-- The resume filter of `run_test` (lines 316-327 / 225-236): each
membership test evaluates `item["qid"]`, raising `KeyError` (modelled by
`none`) when absent. -/
def filterUnprocessed (loaded : List JVal) : List Dict → Option (List Dict)
  | [] => some []
  | d :: ds =>
    match jget d "qid" with
    | none => none
    | some q =>
      match filterUnprocessed loaded ds with
      | none => none
      | some rest => some (if q ∈ loaded then rest else d :: rest)

/-- The `data_to_process` computation of `run_test`: the loaded ids are
used only when resuming, the filter is skipped when the loaded list is
empty, and an optional limit truncates the result. -/
def run_test_dataToProcess (resume : Bool) (loaded : List JVal) (data : List Dict)
    (limit : Option Nat) : Option (List Dict) :=
  let processed := if resume then loaded else []
  let base := if resume && !processed.isEmpty then filterUnprocessed processed data else some data
  match limit with
  | some n => base.map (·.take n)
  | none => base

/-! ### Output-directory selection -/

/-- Decimal digits of a natural number (the text of Python `f"{version}"`). -/
def natDec (n : Nat) : List Char :=
  if n < 10 then [Char.ofNat (48 + n)]
  else natDec (n / 10) ++ [Char.ofNat (48 + n % 10)]
decreasing_by exact Nat.div_lt_self (by omega) (by omega)

/-- Decimal decoding, inverse of `natDec`. -/
def decDec (cs : List Char) : Nat :=
  List.foldl (fun acc c => 10 * acc + (c.toNat - 48)) 0 cs

/-- The candidate directory tried at a given version counter by the agir
driver's `setup_directories` (lines 41-77): version 1 is the bare name,
later versions carry a `-v` suffix. -/
def agirCandidate (version : Nat) : String :=
  if version = 1 then "results/emotion-master"
  else "results/emotion-master-v" ++ ⟨natDec version⟩

/-- The `while True` search of the agir `setup_directories`, with the
filesystem abstracted by the list of existing directories and the
unbounded loop given fuel. -/
def agirGoDir (existing : List String) : Nat → Nat → Option String
  | 0, _ => none
  | fuel + 1, version =>
    if agirCandidate version ∈ existing then agirGoDir existing fuel (version + 1)
    else some (agirCandidate version)

/-- `MODEL_NAME` of `main.py`: the `GPT_MODEL` environment variable with
default `gpt-4.1-nano`. -/
def gptModelName (env : String → Option String) : String :=
  (env "GPT_MODEL").getD "gpt-4.1-nano"

/-- Python `s.replace(".", "-")`. -/
def pyReplaceDot (s : String) : String :=
  ⟨s.data.map (fun c => if c = '.' then '-' else c)⟩

/-- `MODEL_RESULTS_DIR` of `main.py` (line 46). -/
def gptModelResultsDir (env : String → Option String) : String :=
  "results/" ++ pyReplaceDot (gptModelName env)

/-- The output location used by `main.py`'s `setup_directories` (lines
50-54): the fixed model directory, created with `exist_ok=True` — the
existing directories are never consulted. -/
def gptChooseDir (_existing : List String) (env : String → Option String) : String :=
  gptModelResultsDir env

/-! ### Concrete inputs used by witnesses and counterexamples -/

/-- No `{` or `}` characters. -/
def braceFreeB (cs : List Char) : Bool :=
  cs.all (fun ch => decide (ch ≠ '{') && decide (ch ≠ '}'))

/-- No `{` characters. -/
def lbraceFreeB (cs : List Char) : Bool :=
  cs.all (fun ch => decide (ch ≠ '{'))

/-- A two-field answer object. -/
def emObj (e c : String) : JVal :=
  .obj [("emotion", .str e), ("cause", .str c)]

/-- The text strictly between the braces of `serStr (emObj e c)`. -/
def emInner (e c : String) : List Char :=
  '"' :: 'e' :: 'm' :: 'o' :: 't' :: 'i' :: 'o' :: 'n' :: '"' :: ':' :: ' ' :: '"' ::
    (e.data ++ ('"' :: ',' :: ' ' :: '"' :: 'c' :: 'a' :: 'u' :: 's' :: 'e' :: '"' ::
      ':' :: ' ' :: '"' :: (c.data ++ ['"'])))

/-- A well-formed dataset item with the given qid and gold labels. -/
def mkItem (q e c : String) : Dict :=
  [("qid", .str q), ("scenario", .str "s"), ("subject", .str "x"),
   ("emotion_choices", .arr [.str e]), ("cause_choices", .arr [.str c]),
   ("emotion_label", .str e), ("cause_label", .str c)]

/-- Response oracle for the C1 counterexample: a non-JSON body on the
first attempt, then well-formed bodies. -/
def c1Resp : Nat → GptResp := fun n =>
  if n = 0 then .ok "nope" else .ok (serStr (emObj "joy" "a"))

/-- The record produced by scoring a fully correct answer on
`mkItem "q1" "joy" "achievement"`. -/
def c6Rec : EvalRecord :=
  ⟨.str "q1", .str "s", .str "x", .str "joy", .str "joy", true,
   .str "achievement", .str "achievement", true, true⟩

/-- The record produced by scoring the empty answer object on
`mkItem "q1" "joy" "ach"`. -/
def c10Rec : EvalRecord :=
  ⟨.str "q1", .str "s", .str "x", .str "joy", .str "", false,
   .str "ach", .str "", false, false⟩

/-! ### Basic helper lemmas -/

theorem string_data_append (a b : String) : (a ++ b).data = a.data ++ b.data := rfl

theorem string_mk_data (s : String) : String.mk s.data = s := rfl

theorem dropWhile_append_head_false {p : Char → Bool} (u : List Char) (c : Char)
    (w : List Char) (h : p c = false) :
    (u ++ c :: w).dropWhile p = u.dropWhile p ++ c :: w := by
  induction u with
  | nil => simp [List.dropWhile_cons, h]
  | cons a u ih =>
    simp only [List.cons_append, List.dropWhile_cons]
    split <;> simp [ih]

theorem pyStripC_eq_self (c : Char) (mid : List Char) (d : Char)
    (h1 : pyWsB c = false) (h2 : pyWsB d = false) :
    pyStripC (c :: (mid ++ [d])) = c :: (mid ++ [d]) := by
  unfold pyStripC
  rw [List.dropWhile_cons]
  simp only [h1, Bool.false_eq_true, if_false]
  have : (c :: (mid ++ [d])).reverse = d :: (mid.reverse ++ [c]) := by simp
  rw [this, List.dropWhile_cons]
  simp only [h2, Bool.false_eq_true, if_false]
  simp

theorem parseStrBody_round (s rest : List Char) (h : ∀ c ∈ s, ¬c = '"') :
    parseStrBody (s ++ '"' :: rest) = some (s, rest) := by
  induction s with
  | nil => simp [parseStrBody]
  | cons c s ih =>
    have hc : ¬c = '"' := h c (by simp)
    simp only [List.cons_append, parseStrBody, hc, if_false]
    rw [show parseStrBody (s.append ('"' :: rest)) = some (s, rest) from
      ih (fun x hx => h x (by simp [hx]))]

theorem isDigit_ne {c x : Char} (h : c.isDigit = true) (hx : x.isDigit = false) :
    ¬c = x := by
  intro he
  subst he
  rw [h] at hx
  exact Bool.noConfusion hx

theorem isDigit_not_jsonWs {c : Char} (h : c.isDigit = true) : jsonWsB c = false := by
  cases hc : jsonWsB c with
  | false => rfl
  | true =>
    exfalso
    simp only [jsonWsB, Bool.or_eq_true, decide_eq_true_eq] at hc
    rcases hc with ((rfl | rfl) | rfl) | rfl <;> exact absurd h (by decide)

theorem isDigit_not_pyWs {c : Char} (h : c.isDigit = true) : pyWsB c = false := by
  cases hc : pyWsB c with
  | false => rfl
  | true =>
    exfalso
    simp only [pyWsB, Bool.or_eq_true, decide_eq_true_eq] at hc
    rcases hc with ((((rfl | rfl) | rfl) | rfl) | rfl) | rfl <;> exact absurd h (by decide)

theorem numCharB_of_isDigit {c : Char} (h : c.isDigit = true) : numCharB c = true := by
  simp [numCharB, h]

theorem all_numCharB_of_all_isDigit {l : List Char} (h : l.all Char.isDigit = true) :
    l.all numCharB = true := by
  rw [List.all_eq_true] at h ⊢
  exact fun x hx => numCharB_of_isDigit (h x hx)

theorem numDigits1_spec {l r : List Char} (h : numDigits1 l = some r) :
    ∃ t, l = t ++ r ∧ t.all numCharB = true := by
  match l with
  | [] => exact absurd h (by simp [numDigits1])
  | d :: l0 =>
    simp only [numDigits1] at h
    by_cases hd : d.isDigit = true
    · rw [if_pos hd] at h
      refine ⟨d :: l0.takeWhile Char.isDigit, ?_, ?_⟩
      · have := List.takeWhile_append_dropWhile (p := Char.isDigit) (l := l0)
        simp only [Option.some.injEq] at h
        rw [← h]
        simp [this]
      · simp only [List.all_cons, Bool.and_eq_true]
        exact ⟨numCharB_of_isDigit hd, all_numCharB_of_all_isDigit List.all_takeWhile⟩
    · rw [if_neg (by simpa using hd)] at h
      exact absurd h (by simp)

theorem numIntRest_spec {l r : List Char} (h : numIntRest l = some r) :
    ∃ c t, l = (c :: t) ++ r ∧ (c :: t).all numCharB = true ∧ c.isDigit = true := by
  match l with
  | [] => exact absurd h (by simp [numIntRest])
  | c :: l0 =>
    simp only [numIntRest] at h
    by_cases h0 : c = '0'
    · subst h0
      rw [if_pos rfl] at h
      simp only [Option.some.injEq] at h
      subst h
      exact ⟨'0', [], rfl, by decide, by decide⟩
    · rw [if_neg h0] at h
      by_cases hd : c.isDigit = true
      · rw [if_pos hd] at h
        simp only [Option.some.injEq] at h
        refine ⟨c, l0.takeWhile Char.isDigit, ?_, ?_, hd⟩
        · rw [← h]
          simp [List.takeWhile_append_dropWhile]
        · simp only [List.all_cons, Bool.and_eq_true]
          exact ⟨numCharB_of_isDigit hd, all_numCharB_of_all_isDigit List.all_takeWhile⟩
      · rw [if_neg (by simpa using hd)] at h
        exact absurd h (by simp)

theorem numFracRest_spec {l r : List Char} (h : numFracRest l = some r) :
    ∃ t, l = t ++ r ∧ t.all numCharB = true := by
  match l with
  | [] =>
    simp only [numFracRest, Option.some.injEq] at h
    exact ⟨[], by simp [← h], by decide⟩
  | c :: l0 =>
    simp only [numFracRest] at h
    by_cases hdot : c = '.'
    · subst hdot
      rw [if_pos rfl] at h
      obtain ⟨t, ht, hall⟩ := numDigits1_spec h
      refine ⟨'.' :: t, by simp [ht], ?_⟩
      simp only [List.all_cons, Bool.and_eq_true]
      exact ⟨by decide, hall⟩
    · rw [if_neg hdot] at h
      simp only [Option.some.injEq] at h
      exact ⟨[], by simp [← h], by decide⟩

theorem numExpRest_spec {l r : List Char} (h : numExpRest l = some r) :
    ∃ t, l = t ++ r ∧ t.all numCharB = true := by
  match l with
  | [] =>
    simp only [numExpRest, Option.some.injEq] at h
    exact ⟨[], by simp [← h], by decide⟩
  | c :: l0 =>
    simp only [numExpRest] at h
    by_cases he : (c = 'e' || c = 'E') = true
    · rw [if_pos he] at h
      have hce : numCharB c = true := by
        simp only [Bool.or_eq_true, decide_eq_true_eq] at he
        rcases he with rfl | rfl <;> decide
      match l0 with
      | [] => exact absurd h (by simp [numExpAfterSign])
      | s :: r0 =>
        simp only [numExpAfterSign] at h
        by_cases hs : (s = '+' || s = '-') = true
        · rw [if_pos hs] at h
          obtain ⟨t, ht, hall⟩ := numDigits1_spec h
          refine ⟨c :: s :: t, by simp [ht], ?_⟩
          simp only [List.all_cons, Bool.and_eq_true]
          refine ⟨hce, ?_, hall⟩
          simp only [Bool.or_eq_true, decide_eq_true_eq] at hs
          rcases hs with rfl | rfl <;> decide
        · rw [if_neg hs] at h
          obtain ⟨t, ht, hall⟩ := numDigits1_spec h
          refine ⟨c :: t, ?_, ?_⟩
          · rw [List.cons_append, ← ht]
          · simp only [List.all_cons, Bool.and_eq_true]
            exact ⟨hce, hall⟩
    · rw [if_neg he] at h
      simp only [Option.some.injEq] at h
      exact ⟨[], by simp [← h], by decide⟩

theorem numBodyOkB_spec {l : List Char} (h : numBodyOkB l = true) :
    (∃ c t, l = c :: t ∧ c.isDigit = true) ∧ l.all numCharB = true := by
  unfold numBodyOkB at h
  split at h
  · exact Bool.noConfusion h
  next r1 h1 =>
    split at h
    · exact Bool.noConfusion h
    next r2 h2 =>
      split at h
      · exact Bool.noConfusion h
      next r3 h3 =>
        have hr3 : r3 = [] := by simpa using h
        subst hr3
        obtain ⟨c, t1, hl, ha1, hc⟩ := numIntRest_spec h1
        obtain ⟨t2, hr1, ha2⟩ := numFracRest_spec h2
        obtain ⟨t3, hr2, ha3⟩ := numExpRest_spec h3
        subst hr2
        subst hr1
        subst hl
        constructor
        · exact ⟨c, t1 ++ (t2 ++ (t3 ++ [])), by simp, hc⟩
        · simp only [List.all_append, Bool.and_eq_true] at ha1 ⊢
          simp_all

theorem numOkB_spec {s : List Char} (h : numOkB s = true) :
    ∃ c t, s = c :: t ∧ (c.isDigit || decide (c = '-')) = true ∧
      s.all numCharB = true := by
  match s with
  | [] => exact absurd h (by simp [numOkB])
  | c :: r =>
    simp only [numOkB] at h
    by_cases hm : c = '-'
    · subst hm
      rw [if_pos rfl] at h
      obtain ⟨⟨d, t, hdt, hd⟩, hall⟩ := numBodyOkB_spec h
      refine ⟨'-', r, rfl, by decide, ?_⟩
      simp only [List.all_cons, Bool.and_eq_true]
      exact ⟨by decide, hall⟩
    · rw [if_neg hm] at h
      obtain ⟨⟨d, t, hdt, hd⟩, hall⟩ := numBodyOkB_spec h
      have hcd : c.isDigit = true := by
        have : c = d := by
          have := hdt
          simp only [List.cons.injEq] at this
          exact this.1
        rw [this]; exact hd
      exact ⟨c, r, rfl, by simp [hcd], hall⟩

theorem strChOkB_ne_quote {c : Char} (h : strChOkB c = true) : ¬c = '"' := by
  simp only [strChOkB, Bool.and_eq_true, decide_eq_true_eq] at h
  exact h.1.1

theorem key_no_quote {k : String} (h : k.data.all strChOkB = true) :
    ∀ c ∈ k.data, ¬c = '"' := by
  rw [List.all_eq_true] at h
  exact fun c hc => strChOkB_ne_quote (h c hc)

theorem skipWs_cons_false {c : Char} (l : List Char) (h : jsonWsB c = false) :
    skipWs (c :: l) = c :: l := by
  simp [skipWs, List.dropWhile_cons, h]

theorem skipWs_cons_space (l : List Char) : skipWs (' ' :: l) = skipWs l := by
  simp [skipWs, List.dropWhile_cons, jsonWsB]

theorem jsize_pos : ∀ v : JVal, 1 ≤ jsize v := by
  intro v
  cases v <;> simp [jsize]

theorem jsizeL_pos (x : JVal) (xs : List JVal) : 1 ≤ jsizeL (x :: xs) := by
  simp only [jsizeL]
  omega

theorem jsizeO_pos (kv : String × JVal) (kvs : List (String × JVal)) :
    1 ≤ jsizeO (kv :: kvs) := by
  simp only [jsizeO]
  omega

theorem restOkB_members (kvs : List (String × JVal)) (rest : List Char) :
    restOkB (serMembersC kvs ++ ('}' :: rest)) = true := by
  cases kvs with
  | nil =>
    show restOkB ('}' :: rest) = true
    simp only [restOkB]
    decide
  | cons kv kvs =>
    show restOkB (',' :: ' ' :: (serKVC kv ++ serMembersC kvs) ++ ('}' :: rest)) = true
    simp only [List.cons_append, restOkB]
    decide

theorem restOkB_elems (xs : List JVal) (rest : List Char) :
    restOkB (serElemsC xs ++ (']' :: rest)) = true := by
  cases xs with
  | nil =>
    show restOkB (']' :: rest) = true
    simp only [restOkB]
    decide
  | cons x xs =>
    show restOkB (',' :: ' ' :: (serValC x ++ serElemsC xs) ++ (']' :: rest)) = true
    simp only [List.cons_append, restOkB]
    decide

theorem numStart_ne {c : Char} (h : (c.isDigit || decide (c = '-')) = true) :
    ¬c = '{' ∧ ¬c = '[' ∧ ¬c = '"' ∧ ¬c = 't' ∧ ¬c = 'f' ∧ ¬c = 'n' := by
  simp only [Bool.or_eq_true, decide_eq_true_eq] at h
  rcases h with hd | rfl
  · exact ⟨isDigit_ne hd (by decide), isDigit_ne hd (by decide), isDigit_ne hd (by decide),
      isDigit_ne hd (by decide), isDigit_ne hd (by decide), isDigit_ne hd (by decide)⟩
  · exact ⟨by decide, by decide, by decide, by decide, by decide, by decide⟩

theorem serValC_head_spec {v : JVal} (h : jvalOkB v = true) :
    ∃ c t, serValC v = c :: t ∧ jsonWsB c = false ∧ pyWsB c = false ∧
      ¬c = ']' ∧ ¬c = '}' := by
  cases v with
  | str s => exact ⟨'"', _, rfl, by decide, by decide, by decide, by decide⟩
  | num s =>
    have hok : numOkB s.data = true := by simpa [jvalOkB] using h
    obtain ⟨c, t, hs, hct, _⟩ := numOkB_spec hok
    have hcases : c.isDigit = true ∨ c = '-' := by
      simpa only [Bool.or_eq_true, decide_eq_true_eq] using hct
    rcases hcases with hd | rfl
    · exact ⟨c, t, by simp [serValC, hs], isDigit_not_jsonWs hd, isDigit_not_pyWs hd,
        isDigit_ne hd (by decide), isDigit_ne hd (by decide)⟩
    · exact ⟨'-', t, by simp [serValC, hs], by decide, by decide, by decide, by decide⟩
  | bool b =>
    cases b
    · exact ⟨'f', _, rfl, by decide, by decide, by decide, by decide⟩
    · exact ⟨'t', _, rfl, by decide, by decide, by decide, by decide⟩
  | null => exact ⟨'n', _, rfl, by decide, by decide, by decide, by decide⟩
  | arr xs =>
    cases xs with
    | nil => exact ⟨'[', _, rfl, by decide, by decide, by decide, by decide⟩
    | cons x xs => exact ⟨'[', _, rfl, by decide, by decide, by decide, by decide⟩
  | obj kvs =>
    cases kvs with
    | nil => exact ⟨'{', _, rfl, by decide, by decide, by decide, by decide⟩
    | cons kv kvs => exact ⟨'{', _, rfl, by decide, by decide, by decide, by decide⟩

theorem jvalOkL_parts {x : JVal} {xs : List JVal} (h : jvalOkL (x :: xs) = true) :
    jvalOkB x = true ∧ jvalOkL xs = true := by
  simpa only [jvalOkL, Bool.and_eq_true] using h

theorem jvalOkO_parts {kv : String × JVal} {kvs : List (String × JVal)}
    (h : jvalOkO (kv :: kvs) = true) :
    kv.1.data.all strChOkB = true ∧ jvalOkB kv.2 = true ∧ jvalOkO kvs = true := by
  simp only [jvalOkO, Bool.and_eq_true] at h
  exact ⟨h.1.1.1, h.1.1.2, h.2⟩

theorem jsize_le_aux : ∀ fuel : Nat,
    (∀ v, jsize v ≤ fuel → jvalOkB v = true → jsize v ≤ (serValC v).length) ∧
    (∀ xs, jsizeL xs ≤ fuel → jvalOkL xs = true → jsizeL xs ≤ (serElemsC xs).length) ∧
    (∀ kvs, jsizeO kvs ≤ fuel → jvalOkO kvs = true →
      jsizeO kvs ≤ (serMembersC kvs).length) := by
  intro fuel
  induction fuel with
  | zero =>
    refine ⟨fun v hv _ => absurd hv (by have := jsize_pos v; omega), ?_, ?_⟩
    · intro xs hx _
      cases xs with
      | nil => simp [jsizeL]
      | cons x xs => exact absurd hx (by have := jsizeL_pos x xs; omega)
    · intro kvs hk _
      cases kvs with
      | nil => simp [jsizeO]
      | cons kv kvs => exact absurd hk (by have := jsizeO_pos kv kvs; omega)
  | succ fuel ih =>
    refine ⟨?_, ?_, ?_⟩
    · intro v hv hok
      cases v with
      | str s => simp [jsize, serValC]
      | num s =>
        obtain ⟨c, t, hs, _, _⟩ := numOkB_spec (by simpa [jvalOkB] using hok)
        simp [jsize, serValC, hs]
      | bool b => cases b <;> simp [jsize, serValC]
      | null => simp [jsize, serValC]
      | arr xs =>
        cases xs with
        | nil => simp [jsize, jsizeL, serValC]
        | cons x xs =>
          obtain ⟨hok1, hok2⟩ := jvalOkL_parts (by simpa [jvalOkB] using hok)
          have hs1 : jsize x ≤ (serValC x).length := by
            refine ih.1 x ?_ hok1
            simp only [jsize, jsizeL] at hv ⊢
            omega
          have hs2 : jsizeL xs ≤ (serElemsC xs).length := by
            refine ih.2.1 xs ?_ hok2
            simp only [jsize, jsizeL] at hv
            omega
          simp only [jsize, jsizeL, serValC, List.length_cons, List.length_append,
            List.length_singleton]
          omega
      | obj kvs =>
        cases kvs with
        | nil => simp [jsize, jsizeO, serValC]
        | cons kv kvs =>
          obtain ⟨hkok, hvok, hrok⟩ := jvalOkO_parts (by simpa [jvalOkB] using hok)
          have hs1 : jsize kv.2 ≤ (serValC kv.2).length := by
            refine ih.1 kv.2 ?_ hvok
            simp only [jsize, jsizeO] at hv ⊢
            omega
          have hs2 : jsizeO kvs ≤ (serMembersC kvs).length := by
            refine ih.2.2 kvs ?_ hrok
            simp only [jsize, jsizeO] at hv
            omega
          have hkv : (serKVC kv).length = kv.1.data.length + (serValC kv.2).length + 4 := by
            obtain ⟨k, v⟩ := kv
            simp [serKVC]
            omega
          simp only [jsize, jsizeO, serValC, List.length_cons, List.length_append,
            List.length_singleton, hkv]
          omega
    · intro xs hx hok
      cases xs with
      | nil => simp [jsizeL]
      | cons x xs =>
        obtain ⟨hok1, hok2⟩ := jvalOkL_parts hok
        have hs1 : jsize x ≤ (serValC x).length := by
          refine ih.1 x ?_ hok1
          simp only [jsizeL] at hx
          omega
        have hs2 : jsizeL xs ≤ (serElemsC xs).length := by
          refine ih.2.1 xs ?_ hok2
          simp only [jsizeL] at hx
          omega
        simp only [jsizeL, serElemsC, List.length_cons, List.length_append]
        omega
    · intro kvs hk hok
      cases kvs with
      | nil => simp [jsizeO]
      | cons kv kvs =>
        obtain ⟨hkok, hvok, hrok⟩ := jvalOkO_parts hok
        have hs1 : jsize kv.2 ≤ (serValC kv.2).length := by
          refine ih.1 kv.2 ?_ hvok
          simp only [jsizeO] at hk
          omega
        have hs2 : jsizeO kvs ≤ (serMembersC kvs).length := by
          refine ih.2.2 kvs ?_ hrok
          simp only [jsizeO] at hk
          omega
        have hkv : (serKVC kv).length = kv.1.data.length + (serValC kv.2).length + 4 := by
          obtain ⟨k, v⟩ := kv
          simp [serKVC]
          omega
        simp only [jsizeO, serMembersC, List.length_cons, List.length_append, hkv]
        omega

theorem jsize_le_serValC {v : JVal} (h : jvalOkB v = true) :
    jsize v ≤ (serValC v).length :=
  (jsize_le_aux (jsize v)).1 v le_rfl h

theorem take3_cons (a b c : Char) (l : List Char) : (a :: b :: c :: l).take 3 = [a, b, c] := rfl

theorem drop3_cons (a b c : Char) (l : List Char) : (a :: b :: c :: l).drop 3 = l := rfl

theorem take4_cons (a b c d : Char) (l : List Char) : (a :: b :: c :: d :: l).take 4 = [a, b, c, d] := rfl

theorem drop4_cons (a b c d : Char) (l : List Char) : (a :: b :: c :: d :: l).drop 4 = l := rfl

theorem skipWs_members_tail (kvs : List (String × JVal)) (rest : List Char) :
    skipWs (serMembersC kvs ++ ('}' :: rest)) = serMembersC kvs ++ ('}' :: rest) := by
  cases kvs with
  | nil =>
    show skipWs ('}' :: rest) = '}' :: rest
    exact skipWs_cons_false _ (by decide)
  | cons kv kvs =>
    show skipWs (',' :: ' ' :: (serKVC kv ++ serMembersC kvs) ++ ('}' :: rest)) = _
    simp only [List.cons_append]
    exact skipWs_cons_false _ (by decide)

theorem skipWs_elems_tail (xs : List JVal) (rest : List Char) :
    skipWs (serElemsC xs ++ (']' :: rest)) = serElemsC xs ++ (']' :: rest) := by
  cases xs with
  | nil =>
    show skipWs (']' :: rest) = ']' :: rest
    exact skipWs_cons_false _ (by decide)
  | cons x xs =>
    show skipWs (',' :: ' ' :: (serValC x ++ serElemsC xs) ++ (']' :: rest)) = _
    simp only [List.cons_append]
    exact skipWs_cons_false _ (by decide)

theorem skipWs_serValC (v : JVal) (h : jvalOkB v = true) (tail : List Char) :
    skipWs (serValC v ++ tail) = serValC v ++ tail := by
  obtain ⟨c0, t0, hs0, hws0, _, _, _⟩ := serValC_head_spec h
  rw [hs0, List.cons_append, skipWs_cons_false _ hws0]

theorem skipWs_colon (l : List Char) : skipWs (':' :: l) = ':' :: l :=
  skipWs_cons_false _ (by decide)

theorem skipWs_comma (l : List Char) : skipWs (',' :: l) = ',' :: l :=
  skipWs_cons_false _ (by decide)

theorem skipWs_rbrace (l : List Char) : skipWs ('}' :: l) = '}' :: l :=
  skipWs_cons_false _ (by decide)

theorem skipWs_rbrack (l : List Char) : skipWs (']' :: l) = ']' :: l :=
  skipWs_cons_false _ (by decide)

theorem skipWs_serKVC (kv : String × JVal) (tail : List Char) :
    skipWs (serKVC kv ++ tail) = serKVC kv ++ tail := by
  obtain ⟨k, v⟩ := kv
  show skipWs ('"' :: (k.data ++ ('"' :: ':' :: ' ' :: serValC v)) ++ tail) = _
  simp only [List.cons_append]
  exact skipWs_cons_false _ (by decide)

theorem parse_round_aux : ∀ fuel : Nat,
    (∀ v rest, jvalOkB v = true → jsize v ≤ fuel → restOkB rest = true →
      parseVal fuel (serValC v ++ rest) = some (v, rest)) ∧
    (∀ kv kvs rest, jvalOkO (kv :: kvs) = true → jsizeO (kv :: kvs) ≤ fuel →
      parseMembers fuel (serKVC kv ++ (serMembersC kvs ++ ('}' :: rest))) =
        some (kv :: kvs, rest)) ∧
    (∀ x xs rest, jvalOkL (x :: xs) = true → jsizeL (x :: xs) ≤ fuel →
      parseElems fuel (serValC x ++ (serElemsC xs ++ (']' :: rest))) =
        some (x :: xs, rest)) := by
  intro fuel
  induction fuel with
  | zero =>
    refine ⟨fun v rest _ hs _ => absurd hs (by have := jsize_pos v; omega),
      fun kv kvs rest _ hs => absurd hs (by have := jsizeO_pos kv kvs; omega),
      fun x xs rest _ hs => absurd hs (by have := jsizeL_pos x xs; omega)⟩
  | succ fuel ih =>
    obtain ⟨ih1, ih2, ih3⟩ := ih
    refine ⟨?_, ?_, ?_⟩
    · intro v rest hok hsize hrest
      cases v with
      | str s =>
        have hq : ∀ c ∈ s.data, ¬c = '"' := key_no_quote (by simpa [jvalOkB] using hok)
        have hshape : serValC (.str s) ++ rest = '"' :: (s.data ++ ('"' :: rest)) := by
          simp [serValC]
        rw [hshape]
        simp [parseVal, parseStrBody_round s.data rest hq]
      | num s =>
        have hnum : numOkB s.data = true := by simpa [jvalOkB] using hok
        obtain ⟨c, t, hsd, hct, hall⟩ := numOkB_spec hnum
        obtain ⟨h1, h2, h3, h4, h5, h6⟩ := numStart_ne hct
        have hallct : (c :: t).all numCharB = true := hsd ▸ hall
        have hmem : ∀ a ∈ c :: t, numCharB a := fun a ha => List.all_eq_true.mp hallct a ha
        have hrest0 : rest.takeWhile numCharB = [] := by
          cases rest with
          | nil => rfl
          | cons r0 rs =>
            have hr0 : numCharB r0 = false := by
              simpa only [restOkB, Bool.not_eq_true'] using hrest
            simp [List.takeWhile_cons, hr0]
        have hdrop0 : rest.dropWhile numCharB = rest := by
          cases rest with
          | nil => rfl
          | cons r0 rs =>
            have hr0 : numCharB r0 = false := by
              simpa only [restOkB, Bool.not_eq_true'] using hrest
            simp [List.dropWhile_cons, hr0]
        have htk : ((c :: t) ++ rest).takeWhile numCharB = c :: t := by
          rw [List.takeWhile_append_of_pos hmem, hrest0, List.append_nil]
        have hdr : ((c :: t) ++ rest).dropWhile numCharB = rest := by
          rw [List.dropWhile_append_of_pos hmem, hdrop0]
        have hshape : serValC (.num s) ++ rest = c :: (t ++ rest) := by
          simp [serValC, hsd]
        rw [hshape]
        simp only [parseVal, h1, h2, h3, h4, h5, h6, if_false, ite_false, hct, if_true, ite_true]
        rw [← List.cons_append, htk, hdr, ← hsd]
      | bool b =>
        cases b with
        | false =>
          have hshape : serValC (.bool false) ++ rest = 'f' :: 'a' :: 'l' :: 's' :: 'e' :: rest := by
            simp [serValC]
          rw [hshape]
          simp [parseVal, take4_cons, drop4_cons]
        | true =>
          have hshape : serValC (.bool true) ++ rest = 't' :: 'r' :: 'u' :: 'e' :: rest := by
            simp [serValC]
          rw [hshape]
          simp [parseVal, take3_cons, drop3_cons]
      | null =>
        have hshape : serValC .null ++ rest = 'n' :: 'u' :: 'l' :: 'l' :: rest := by
          simp [serValC]
        rw [hshape]
        simp [parseVal, take3_cons, drop3_cons]
      | arr xs =>
        cases xs with
        | nil =>
          have hshape : serValC (.arr []) ++ rest = '[' :: ']' :: rest := by simp [serValC]
          rw [hshape]
          simp [parseVal, skipWs_cons_false _ (show jsonWsB ']' = false by decide)]
        | cons x xs =>
          have hokL : jvalOkL (x :: xs) = true := by simpa [jvalOkB] using hok
          obtain ⟨hok1, hok2⟩ := jvalOkL_parts hokL
          obtain ⟨c0, t0, hs0, hws0, _, hne0, _⟩ := serValC_head_spec hok1
          have hsz : jsizeL (x :: xs) ≤ fuel := by
            simp only [jsize] at hsize; omega
          have helems := ih3 x xs rest hokL hsz
          have hshape : serValC (.arr (x :: xs)) ++ rest =
              '[' :: (serValC x ++ (serElemsC xs ++ (']' :: rest))) := by
            simp [serValC]
          rw [hshape]
          simp only [parseVal]
          rw [hs0, List.cons_append, skipWs_cons_false _ hws0]
          simp only [hne0, ite_false, if_false]
          rw [← List.cons_append, ← hs0, helems]
          rw [if_neg (show ¬('[' : Char) = '{' from by decide)]
          simp
      | obj kvs =>
        cases kvs with
        | nil =>
          have hshape : serValC (.obj []) ++ rest = '{' :: '}' :: rest := by simp [serValC]
          rw [hshape]
          simp [parseVal, skipWs_cons_false _ (show jsonWsB '}' = false by decide)]
        | cons kv kvs =>
          have hokO : jvalOkO (kv :: kvs) = true := by simpa [jvalOkB] using hok
          have hsz : jsizeO (kv :: kvs) ≤ fuel := by
            simp only [jsize] at hsize; omega
          have hmembers := ih2 kv kvs rest hokO hsz
          obtain ⟨k, v⟩ := kv
          have hshape : serValC (.obj ((k, v) :: kvs)) ++ rest =
              '{' :: (serKVC (k, v) ++ (serMembersC kvs ++ ('}' :: rest))) := by
            simp [serValC]
          rw [hshape]
          have hkv : serKVC (k, v) ++ (serMembersC kvs ++ ('}' :: rest)) =
              '"' :: (k.data ++ ('"' :: ':' :: ' ' :: serValC v) ++ (serMembersC kvs ++ ('}' :: rest))) := by
            simp [serKVC]
          simp only [parseVal]
          simp only [if_true]
          rw [hkv, skipWs_cons_false _ (by decide)]
          have hqb : ¬('"' : Char) = '}' := by decide
          simp only [hqb, ite_false, if_false]
          rw [← hkv, hmembers]
    · intro kv kvs rest hok hsize
      obtain ⟨k, v⟩ := kv
      obtain ⟨hkok, hvok, hrok⟩ := jvalOkO_parts hok
      have hszv : jsize v ≤ fuel := by
        simp only [jsizeO] at hsize
        omega
      have hshape : serKVC (k, v) ++ (serMembersC kvs ++ ('}' :: rest)) =
          '"' :: (k.data ++ ('"' :: (':' :: (' ' :: (serValC v ++ (serMembersC kvs ++ ('}' :: rest))))))) := by
        simp [serKVC]
      rw [hshape]
      have hstr := parseStrBody_round k.data
        (':' :: (' ' :: (serValC v ++ (serMembersC kvs ++ ('}' :: rest))))) (key_no_quote hkok)
      have hval := ih1 v (serMembersC kvs ++ ('}' :: rest)) hvok hszv (restOkB_members kvs rest)
      simp only [parseMembers, if_true, hstr, skipWs_colon, skipWs_cons_space,
        skipWs_serValC v hvok, hval]
      cases kvs with
      | nil =>
        have hne : ¬('}' : Char) = ',' := by decide
        simp only [serMembersC, List.nil_append, skipWs_rbrace, hne, ite_false, if_false,
          if_true]
      | cons kv2 kvs2 =>
        have hsz2 : jsizeO (kv2 :: kvs2) ≤ fuel := by
          simp only [jsizeO] at hsize ⊢
          omega
        have hmem2 := ih2 kv2 kvs2 rest hrok hsz2
        have htail : serMembersC (kv2 :: kvs2) ++ ('}' :: rest) =
            ',' :: (' ' :: (serKVC kv2 ++ (serMembersC kvs2 ++ ('}' :: rest)))) := by
          simp [serMembersC]
        simp only [htail, skipWs_comma, if_true, skipWs_cons_space, skipWs_serKVC, hmem2]
    · intro x xs rest hok hsize
      obtain ⟨hok1, hok2⟩ := jvalOkL_parts hok
      have hszx : jsize x ≤ fuel := by
        simp only [jsizeL] at hsize
        omega
      have hval := ih1 x (serElemsC xs ++ (']' :: rest)) hok1 hszx (restOkB_elems xs rest)
      simp only [parseElems, hval]
      cases xs with
      | nil =>
        have hne : ¬(']' : Char) = ',' := by decide
        simp only [serElemsC, List.nil_append, skipWs_rbrack, hne, ite_false, if_false,
          if_true]
      | cons x2 xs2 =>
        have hsz2 : jsizeL (x2 :: xs2) ≤ fuel := by
          simp only [jsizeL] at hsize ⊢
          omega
        have helems2 := ih3 x2 xs2 rest hok2 hsz2
        have htail : serElemsC (x2 :: xs2) ++ (']' :: rest) =
            ',' :: (' ' :: (serValC x2 ++ (serElemsC xs2 ++ (']' :: rest)))) := by
          simp [serElemsC]
        simp only [htail, skipWs_comma, if_true, skipWs_cons_space,
          skipWs_serValC x2 (jvalOkL_parts hok2).1, helems2]

theorem pyJsonLoadsC_ser {v : JVal} (h : jvalOkB v = true) :
    pyJsonLoadsC (serValC v) = some v := by
  obtain ⟨c0, t0, hs0, hws0, _, _, _⟩ := serValC_head_spec h
  have hskip : skipWs (serValC v) = serValC v := by
    rw [hs0]
    exact skipWs_cons_false _ hws0
  have hrt := (parse_round_aux ((serValC v).length + 1)).1 v [] h
    (by have := jsize_le_serValC h; omega) rfl
  rw [List.append_nil] at hrt
  simp only [pyJsonLoadsC, hskip, hrt]
  simp [skipWs]

theorem serValC_obj_shape (kvs : List (String × JVal)) :
    ∃ mid, serValC (.obj kvs) = '{' :: (mid ++ ['}']) := by
  cases kvs with
  | nil => exact ⟨[], rfl⟩
  | cons kv kvs => exact ⟨serKVC kv ++ serMembersC kvs, by simp [serValC]⟩

theorem extract_ser_obj {kvs : List (String × JVal)} (h : jvalOkB (.obj kvs) = true) :
    extractAnswer (serStr (.obj kvs)) = some (.obj kvs) := by
  obtain ⟨mid, hm⟩ := serValC_obj_shape kvs
  have hdata : (serStr (.obj kvs)).data = serValC (.obj kvs) := rfl
  have hstrip : pyStripC (serStr (.obj kvs)).data = serValC (.obj kvs) := by
    rw [hdata, hm]
    exact pyStripC_eq_self '{' mid '}' (by decide) (by decide)
  have hh : headIs (serValC (.obj kvs)) '{' = true := by
    rw [hm]
    simp [headIs]
  have hl : lastIs (serValC (.obj kvs)) '}' = true := by
    rw [hm]
    unfold lastIs
    have hrev : ('{' :: (mid ++ ['}'])).reverse = '}' :: (mid.reverse ++ ['{']) := by simp
    rw [hrev]
    simp [headIs]
  simp only [extractAnswer, hstrip, hh, hl, Bool.and_self, if_true]
  exact pyJsonLoadsC_ser h

/-! ### Helper lemmas about the scorer -/

theorem evaluate_responses_qid {v : JVal} {item : Dict} {rec : EvalRecord}
    (h : evaluate_responses v item = some rec) : jget item "qid" = some rec.qid := by
  unfold evaluate_responses at h
  split at h
  next te tc _ _ =>
    split at h
    next kvs =>
      split at h
      next q sc su hq hsc hsu =>
        simp only [Option.some.injEq] at h
        subst h
        exact hq
      next => exact absurd h (by simp)
    next => exact absurd h (by simp)
  next => exact absurd h (by simp)

/-! ### Claim theorems -/

/-- Claim C2: for every valid JSON object text (in the modelled escape-free
fragment) with string fields `emotion` and `cause`, extraction applied to
that text succeeds, returns the whole object, and the two fields of the
result are exactly those values. -/
theorem C2_extract_roundtrip (kvs : List (String × JVal)) (e c : String)
    (hok : jvalOkB (.obj kvs) = true)
    (he : jget kvs "emotion" = some (.str e))
    (hc : jget kvs "cause" = some (.str c)) :
    extractAnswer (serStr (.obj kvs)) = some (.obj kvs) ∧
      jget kvs "emotion" = some (.str e) ∧ jget kvs "cause" = some (.str c) :=
  ⟨extract_ser_obj hok, he, hc⟩

/-- Witness for C2 at a concrete two-field object. -/
theorem C2_extract_roundtrip_witness :
    jvalOkB (emObj "joy" "achievement") = true ∧
    extractAnswer (serStr (emObj "joy" "achievement")) = some (emObj "joy" "achievement") :=
  ⟨by decide,
   (C2_extract_roundtrip [("emotion", .str "joy"), ("cause", .str "achievement")]
     "joy" "achievement" (by decide) (by decide) (by decide)).1⟩

/-- Claim C6: `evaluate_responses` is a pure function whose correctness
flags are exact (case-sensitive) equality tests of predicted versus gold
values, `both_correct` is their conjunction, equality on string values is
string equality, and predicted `"Joy"` against gold `"joy"` scores
incorrect. -/
theorem C6_score_exact :
    (∀ api_response item rec, evaluate_responses api_response item = some rec →
      rec.emotion_correct = decide (rec.predicted_emotion = rec.true_emotion) ∧
      rec.cause_correct = decide (rec.predicted_cause = rec.true_cause) ∧
      rec.both_correct = (rec.emotion_correct && rec.cause_correct)) ∧
    (∀ p g : String, decide (JVal.str p = JVal.str g) = decide (p = g)) ∧
    ((evaluate_responses (emObj "Joy" "ach") (mkItem "q1" "joy" "ach")).map
      (·.emotion_correct) = some false) := by
  refine ⟨?_, ?_, by decide⟩
  · intro resp item rec h
    unfold evaluate_responses at h
    split at h
    next te tc _ _ =>
      split at h
      next kvs =>
        split at h
        next q sc su hq hsc hsu =>
          simp only [Option.some.injEq] at h
          subst h
          exact ⟨rfl, rfl, rfl⟩
        next => exact absurd h (by simp)
      next => exact absurd h (by simp)
    next => exact absurd h (by simp)
  · intro p g
    exact decide_eq_decide.mpr (by simp)

/-- Witness for C6 at a concrete correct answer. -/
theorem C6_score_exact_witness :
    evaluate_responses (emObj "joy" "achievement") (mkItem "q1" "joy" "achievement") =
      some c6Rec ∧
    (c6Rec.emotion_correct = decide (c6Rec.predicted_emotion = c6Rec.true_emotion) ∧
      c6Rec.cause_correct = decide (c6Rec.predicted_cause = c6Rec.true_cause) ∧
      c6Rec.both_correct = (c6Rec.emotion_correct && c6Rec.cause_correct)) :=
  ⟨by decide,
   C6_score_exact.1 (emObj "joy" "achievement") (mkItem "q1" "joy" "achievement") c6Rec
     (by decide)⟩

/-- Claim C9: aggregate statistics on an empty results list are zero for
all three accuracies (no division-by-zero failure); on a non-empty list
each accuracy is the count of true flags divided by the total. -/
theorem C9_stats :
    (calculate_statistics [] = ⟨0, 0, 0, 0⟩) ∧
    (∀ results : List EvalRecord, results ≠ [] →
      (calculate_statistics results).total_items = results.length ∧
      (calculate_statistics results).emotion_accuracy =
        ((results.filter (·.emotion_correct)).length : ℚ) / (results.length : ℚ) ∧
      (calculate_statistics results).cause_accuracy =
        ((results.filter (·.cause_correct)).length : ℚ) / (results.length : ℚ) ∧
      (calculate_statistics results).both_correct_accuracy =
        ((results.filter (·.both_correct)).length : ℚ) / (results.length : ℚ)) := by
  constructor
  · rfl
  · intro rs hne
    have hpos : rs.length > 0 := List.length_pos.mpr hne
    unfold calculate_statistics
    simp [hpos]

/-- Witness for C9 at a concrete one-record results list. -/
theorem C9_stats_witness :
    ([c6Rec] : List EvalRecord) ≠ [] ∧
    (calculate_statistics [c6Rec]).emotion_accuracy =
      (([c6Rec].filter (·.emotion_correct)).length : ℚ) /
        (([c6Rec] : List EvalRecord).length : ℚ) :=
  ⟨by simp, (C9_stats.2 [c6Rec] (by simp)).2.1⟩

/-- Claim C10: a missing `emotion`/`cause` key in the extracted answer does
not make scoring fail — the empty string is substituted, so the flag is
false whenever the gold label differs from the empty string — while a
ground-truth record missing `emotion_label` or `cause_label` makes scoring
fail. -/
theorem C10_missing_keys :
    (∀ kvs item rec, evaluate_responses (.obj kvs) item = some rec →
      jget kvs "emotion" = none →
      rec.predicted_emotion = .str "" ∧
        (rec.true_emotion ≠ .str "" → rec.emotion_correct = false)) ∧
    (∀ kvs item rec, evaluate_responses (.obj kvs) item = some rec →
      jget kvs "cause" = none →
      rec.predicted_cause = .str "" ∧
        (rec.true_cause ≠ .str "" → rec.cause_correct = false)) ∧
    (∀ (kvs : List (String × JVal)) (item : Dict) te tc q sc su,
      jget item "emotion_label" = some te → jget item "cause_label" = some tc →
      jget item "qid" = some q → jget item "scenario" = some sc →
      jget item "subject" = some su →
      (evaluate_responses (.obj kvs) item).isSome = true) ∧
    (∀ resp item, jget item "emotion_label" = none →
      evaluate_responses resp item = none) ∧
    (∀ resp item, jget item "cause_label" = none →
      evaluate_responses resp item = none) := by
  refine ⟨?_, ?_, ?_, ?_, ?_⟩
  · intro kvs item rec h hmiss
    unfold evaluate_responses at h
    split at h
    next te tc hte htc =>
      split at h
      next kvs2 hkv =>
        obtain rfl : kvs = kvs2 := JVal.obj.inj hkv
        split at h
        next q sc su hq hsc hsu =>
          simp only [Option.some.injEq] at h
          subst h
          refine ⟨by simp [hmiss], fun hne => ?_⟩
          simp only [hmiss, Option.getD_none]
          exact decide_eq_false (fun heq => hne (by simp [← heq, hmiss]))
        next => exact absurd h (by simp)
      next himp => exact (himp kvs rfl).elim
    next => exact absurd h (by simp)
  · intro kvs item rec h hmiss
    unfold evaluate_responses at h
    split at h
    next te tc hte htc =>
      split at h
      next kvs2 hkv =>
        obtain rfl : kvs = kvs2 := JVal.obj.inj hkv
        split at h
        next q sc su hq hsc hsu =>
          simp only [Option.some.injEq] at h
          subst h
          refine ⟨by simp [hmiss], fun hne => ?_⟩
          simp only [hmiss, Option.getD_none]
          exact decide_eq_false (fun heq => hne (by simp [← heq, hmiss]))
        next => exact absurd h (by simp)
      next himp => exact (himp kvs rfl).elim
    next => exact absurd h (by simp)
  · intro kvs item te tc q sc su hte htc hq hsc hsu
    simp [evaluate_responses, hte, htc, hq, hsc, hsu]
  · intro resp item h
    simp [evaluate_responses, h]
  · intro resp item h
    cases h1 : jget item "emotion_label" <;> simp [evaluate_responses, h, h1]

/-- Witness for C10: empty answer object scores with empty-string
predictions and false flags; an item missing its gold labels fails. -/
theorem C10_missing_keys_witness :
    (evaluate_responses (.obj []) (mkItem "q1" "joy" "ach") = some c10Rec ∧
      c10Rec.predicted_emotion = .str "" ∧ c10Rec.emotion_correct = false) ∧
    evaluate_responses (.obj []) [("cause_label", .str "x")] = none := by
  have h1 := C10_missing_keys.1 [] (mkItem "q1" "joy" "ach") c10Rec (by decide) rfl
  have h2 := C10_missing_keys.2.2.2.1 (.obj []) [("cause_label", .str "x")] (by decide)
  exact ⟨⟨by decide, h1.1, h1.2 (by decide)⟩, h2⟩

theorem filterUnprocessed_eq (loaded : List JVal) (data : List Dict)
    (h : ∀ d ∈ data, (jget d "qid").isSome = true) :
    filterUnprocessed loaded data =
      some (data.filter (fun d => !decide ((jget d "qid").getD JVal.null ∈ loaded))) := by
  induction data with
  | nil => rfl
  | cons d ds ih =>
    obtain ⟨q, hq⟩ := Option.isSome_iff_exists.mp (h d (by simp))
    have ih' := ih (fun x hx => h x (by simp [hx]))
    simp only [filterUnprocessed, hq, ih', List.filter_cons]
    by_cases hmem : q ∈ loaded
    · simp [hmem, hq]
    · simp [hmem, hq]

/-- Claim C5: when resuming, the run processes exactly the dataset records
whose qid is not among the loaded ledger ids, in the original dataset
order (`List.filter` preserves order); this also covers an empty loaded
ledger, where the filter branch is skipped but the result is the same. -/
theorem C5_resume_filter (loaded : List JVal) (data : List Dict)
    (h : ∀ d ∈ data, (jget d "qid").isSome = true) :
    run_test_dataToProcess true loaded data none =
      some (data.filter (fun d => !decide ((jget d "qid").getD JVal.null ∈ loaded))) := by
  unfold run_test_dataToProcess
  cases loaded with
  | nil =>
    have hfil : data.filter
        (fun d => !decide ((jget d "qid").getD JVal.null ∈ ([] : List JVal))) = data := by
      rw [List.filter_eq_self]
      intro a _
      simp
    simp [hfil]
  | cons l0 ls =>
    simp only [if_true, List.isEmpty_cons, Bool.not_false, Bool.and_true, Bool.true_and]
    exact filterUnprocessed_eq (l0 :: ls) data h

/-- Witness for C5: the spec's instance — ledger `["q1"]` over dataset
`["q1","q2","q3"]` leaves exactly `["q2","q3"]`. -/
theorem C5_resume_filter_witness :
    run_test_dataToProcess true [.str "q1"]
      [mkItem "q1" "e" "c", mkItem "q2" "e" "c", mkItem "q3" "e" "c"] none =
      some [mkItem "q2" "e" "c", mkItem "q3" "e" "c"] := by
  rw [C5_resume_filter [.str "q1"]
    [mkItem "q1" "e" "c", mkItem "q2" "e" "c", mkItem "q3" "e" "c"] (by decide)]
  decide

/-- Claim C4: the run loop preserves the ledger invariant — every result
line's qid is in the ledger — because the ledger is extended exactly when
a result line is appended; instantiating `data` with any prefix of the
item list gives the invariant after every completed iteration. -/
theorem C4_ledger_invariant (qf : String → QueryOutcome) (data : List Dict)
    (st : RunState) (hinv : ledgerInv st) : ledgerInv (runExec qf data st).1 := by
  induction data generalizing st with
  | nil => exact hinv
  | cons item rest ih =>
    show ledgerInv (runExec qf (item :: rest) st).1
    unfold runExec
    split
    · exact hinv
    next prompt hprompt =>
      split
      · exact hinv
      · split
        · exact hinv
        · exact ih st hinv
      · split
        · split
          · exact hinv
          next rec hrec =>
            split
            · exact hinv
            next qid hqid =>
              refine ih _ ?_
              intro r hr
              rcases List.mem_append.mp hr with hmem | hmem
              · exact List.mem_append.mpr (Or.inl (hinv r hmem))
              · have hrrec : r = rec := by simpa using hmem
                subst hrrec
                have hq := evaluate_responses_qid hrec
                rw [hqid] at hq
                have : qid = r.qid := by simpa using hq
                subst this
                exact List.mem_append.mpr (Or.inr (by simp))
        · split
          · exact hinv
          · exact ih st hinv

/-- Witness for C4: a concrete successful run step keeps the invariant. -/
theorem C4_ledger_invariant_witness :
    ledgerInv (runExec (fun _ => QueryOutcome.success (emObj "joy" "achievement"))
      [mkItem "q1" "joy" "achievement"] ⟨[], []⟩).1 :=
  C4_ledger_invariant _ [mkItem "q1" "joy" "achievement"] ⟨[], []⟩
    (fun r hr => absurd hr (by simp))

/-! ### Whitespace-only bodies fail JSON parsing -/

theorem dropWhile_head_false {p : Char → Bool} :
    ∀ (l : List Char) c rest, l.dropWhile p = c :: rest → p c = false := by
  intro l
  induction l with
  | nil =>
    intro c rest h
    exact absurd h (by simp)
  | cons a l ih =>
    intro c rest h
    rw [List.dropWhile_cons] at h
    by_cases hp : p a
    · rw [if_pos hp] at h
      exact ih c rest h
    · rw [if_neg hp] at h
      cases h
      simpa using hp

theorem parseVal_bad_head {c : Char} (fuel : Nat) (rest : List Char)
    (h1 : ¬c = '{') (h2 : ¬c = '[') (h3 : ¬c = '"') (h4 : ¬c = 't') (h5 : ¬c = 'f')
    (h6 : ¬c = 'n') (h7 : (c.isDigit || decide (c = '-')) = false) :
    parseVal (fuel + 1) (c :: rest) = none := by
  simp [parseVal, h1, h2, h3, h4, h5, h6, h7]

theorem stripEmpty_all_ws {s : String} (h : stripEmptyB s = true) :
    ∀ c ∈ s.data, pyWsB c = true := by
  unfold stripEmptyB pyStripC at h
  rw [List.isEmpty_iff] at h
  have h1 : (s.data.dropWhile pyWsB).reverse.dropWhile pyWsB = [] :=
    List.reverse_eq_nil_iff.mp h
  have h2 : ∀ a ∈ (s.data.dropWhile pyWsB).reverse, pyWsB a = true := by
    rw [List.dropWhile_eq_nil_iff] at h1
    exact h1
  have h3 : ∀ a ∈ s.data.dropWhile pyWsB, pyWsB a = true := by
    intro a ha
    exact h2 a (List.mem_reverse.mpr ha)
  intro c hc
  rw [← List.takeWhile_append_dropWhile (p := pyWsB) (l := s.data)] at hc
  rcases List.mem_append.mp hc with hm | hm
  · have := List.all_takeWhile (p := pyWsB) (l := s.data)
    rw [List.all_eq_true] at this
    exact this c hm
  · exact h3 c hm

theorem loads_ws_none {cs : List Char} (h : ∀ c ∈ cs, pyWsB c = true) :
    pyJsonLoadsC cs = none := by
  cases hs : skipWs cs with
  | nil =>
    show (match parseVal ((skipWs cs).length + 1) (skipWs cs) with
          | some (v, r) => if (skipWs r).isEmpty = true then some v else none
          | none => none) = none
    rw [hs]
    rfl
  | cons c rest =>
    have hcm : c ∈ cs := by
      have hmem : c ∈ skipWs cs := by
        rw [hs]
        simp
      exact (List.dropWhile_sublist jsonWsB).subset hmem
    have hws : pyWsB c = true := h c hcm
    have hjs : jsonWsB c = false := dropWhile_head_false cs c rest hs
    have hcc : c = '\x0b' ∨ c = '\x0c' := by
      simp only [pyWsB, Bool.or_eq_true, decide_eq_true_eq] at hws
      simp only [jsonWsB, Bool.or_eq_false_iff, decide_eq_false_iff_not] at hjs
      rcases hws with ((((h0 | h0) | h0) | h0) | h0) | h0
      · exact absurd h0 hjs.1.1.1
      · exact absurd h0 hjs.1.1.2
      · exact absurd h0 hjs.1.2
      · exact absurd h0 hjs.2
      · exact Or.inl h0
      · exact Or.inr h0
    have hbad : parseVal ((c :: rest).length + 1) (c :: rest) = none := by
      rcases hcc with rfl | rfl
      · exact parseVal_bad_head (rest.length + 1) rest (by decide) (by decide) (by decide)
          (by decide) (by decide) (by decide) (by decide)
      · exact parseVal_bad_head (rest.length + 1) rest (by decide) (by decide) (by decide)
          (by decide) (by decide) (by decide) (by decide)
    show (match parseVal ((skipWs cs).length + 1) (skipWs cs) with
          | some (v, r) => if (skipWs r).isEmpty = true then some v else none
          | none => none) = none
    rw [hs, hbad]

theorem gptParsePhase_empty {b : String} (h : stripEmptyB b = true) :
    gptParsePhase b = .exit1 := by
  unfold gptParsePhase
  by_cases he : b.data.isEmpty = true
  · simp [he]
  · rw [if_neg (by simpa using he)]
    rw [show pyJsonLoads b = none from loads_ws_none (stripEmpty_all_ws h)]

/-- Claim C7: when the backend returns an empty body on every attempt,
both drivers terminate the run with `sys.exit(1)` (the chosen policy is
fatal, not skip); a query consults at most the first `retries` responses
(for both drivers); and a query that exits writes no record for the item
and ends the run with the state unchanged. -/
theorem C7_retry_exhaustion :
    (∀ retries resp, 0 < retries →
      (∀ i, i < retries → ∃ b, resp i = ApiResp.ok b ∧ stripEmptyB b = true) →
      agirQuery retries resp = .exit1) ∧
    (∀ model retries resp, 0 < retries →
      (∀ i, i < retries → ∃ b, resp i = GptResp.ok b ∧ stripEmptyB b = true) →
      gptQuery model retries resp = .exit1) ∧
    (∀ retries resp resp', (∀ i, i < retries → resp i = resp' i) →
      agirQuery retries resp = agirQuery retries resp') ∧
    (∀ model retries resp resp', (∀ i, i < retries → resp i = resp' i) →
      gptQuery model retries resp = gptQuery model retries resp') ∧
    (∀ (qf : String → QueryOutcome) prompt item rest st,
      create_prompt item = some prompt → qf prompt = .exit1 →
      runExec qf (item :: rest) st = (st, .exited)) := by
  have hagir : ∀ (remaining : Nat) (resp : Nat → ApiResp) (attempt : Nat), 0 < remaining →
      (∀ i, attempt ≤ i → i < attempt + remaining →
        ∃ b, resp i = ApiResp.ok b ∧ stripEmptyB b = true) →
      agirGo resp attempt remaining = .exit1 := by
    intro remaining
    induction remaining with
    | zero =>
      intro _ _ h
      omega
    | succ r ih =>
      intro resp attempt _ hall
      obtain ⟨b, hb, he⟩ := hall attempt (le_refl _) (by omega)
      by_cases hr : r = 0
      · subst hr
        simp [agirGo, hb, he]
      · have hrec := ih resp (attempt + 1) (by omega)
          (fun i h1 h2 => hall i (by omega) (by omega))
        simp [agirGo, hb, he, hr, hrec]
  have hgpt : ∀ (remaining : Nat) (model : String) (resp : Nat → GptResp) (attempt : Nat),
      0 < remaining →
      (∀ i, attempt ≤ i → i < attempt + remaining →
        ∃ b, resp i = GptResp.ok b ∧ stripEmptyB b = true) →
      gptGo model resp attempt remaining = .exit1 := by
    intro remaining
    induction remaining with
    | zero =>
      intro _ _ _ h
      omega
    | succ r ih =>
      intro model resp attempt _ hall
      obtain ⟨b, hb, he⟩ := hall attempt (le_refl _) (by omega)
      by_cases hr : r = 0
      · subst hr
        simp [gptGo, hb, he]
      · by_cases hm : model = "o4-mini"
        · subst hm
          have hrec := ih "o4-mini" resp (attempt + 1) (by omega)
            (fun i h1 h2 => hall i (by omega) (by omega))
          simp [gptGo, hb, he, hr, hrec]
        · simp [gptGo, hb, he, hr, hm, gptParsePhase_empty he]
  have hagir_ext : ∀ (remaining attempt : Nat) (resp resp' : Nat → ApiResp),
      (∀ i, attempt ≤ i → i < attempt + remaining → resp i = resp' i) →
      agirGo resp attempt remaining = agirGo resp' attempt remaining := by
    intro remaining
    induction remaining with
    | zero =>
      intro attempt resp resp' _
      rfl
    | succ r ih =>
      intro attempt resp resp' h
      have h0 : resp attempt = resp' attempt := h attempt (le_refl _) (by omega)
      have hrec := ih (attempt + 1) resp resp' (fun i h1 h2 => h i (by omega) (by omega))
      unfold agirGo
      rw [← h0]
      cases hra : resp attempt <;> simp [hrec]
  have hgpt_ext : ∀ (remaining attempt : Nat) (model : String) (resp resp' : Nat → GptResp),
      (∀ i, attempt ≤ i → i < attempt + remaining → resp i = resp' i) →
      gptGo model resp attempt remaining = gptGo model resp' attempt remaining := by
    intro remaining
    induction remaining with
    | zero =>
      intro attempt model resp resp' _
      rfl
    | succ r ih =>
      intro attempt model resp resp' h
      have h0 : resp attempt = resp' attempt := h attempt (le_refl _) (by omega)
      have hrec := ih (attempt + 1) model resp resp'
        (fun i h1 h2 => h i (by omega) (by omega))
      unfold gptGo
      rw [← h0]
      cases hra : resp attempt <;> simp [hrec]
  refine ⟨?_, ?_, ?_, ?_, ?_⟩
  · intro retries resp hpos hall
    exact hagir retries resp 0 hpos (fun i _ h2 => hall i (by omega))
  · intro model retries resp hpos hall
    exact hgpt retries model resp 0 hpos (fun i _ h2 => hall i (by omega))
  · intro retries resp resp' h
    exact hagir_ext retries 0 resp resp' (fun i _ h2 => h i (by omega))
  · intro model retries resp resp' h
    exact hgpt_ext retries 0 model resp resp' (fun i _ h2 => h i (by omega))
  · intro qf prompt item rest st hcp hq
    simp [runExec, hcp, hq]

/-- Witness for C7: three empty-body attempts end in `sys.exit(1)`. -/
theorem C7_retry_exhaustion_witness :
    (0 : Nat) < 3 ∧ agirQuery 3 (fun _ => ApiResp.ok " ") = .exit1 :=
  ⟨by decide, C7_retry_exhaustion.1 3 (fun _ => ApiResp.ok " ") (by decide)
    (fun i _ => ⟨" ", rfl, by decide⟩)⟩

/-- Counterexample to C1: in the GPT driver (`query_gpt`), the first
attempt receives a 2xx response with the non-empty body `"nope"` whose
JSON extraction fails, and although two attempts remain the run aborts
immediately with `sys.exit(1)`; the remaining attempts would have
succeeded, so the outcome differs from retrying as the claim states. -/
theorem C1_counterexample :
    stripEmptyB "nope" = false ∧ pyJsonLoads "nope" = none ∧
    gptGo "gpt-4.1-nano" c1Resp 0 3 = .exit1 ∧
    gptGo "gpt-4.1-nano" c1Resp 1 2 = .success (emObj "joy" "a") ∧
    gptGo "gpt-4.1-nano" c1Resp 0 3 ≠ gptGo "gpt-4.1-nano" c1Resp 1 2 :=
  ⟨by decide, by decide, by decide, by decide, by decide⟩

/-- Claim C1 amended: in the agir driver the claim holds — on a 2xx
response whose non-empty body fails extraction the client retries when
attempts remain and aborts only on the final attempt, and an empty body is
treated identically.  In the GPT driver it does not: a non-empty body that
fails JSON parsing aborts immediately even when attempts remain, and an
empty body also aborts unless the model is `o4-mini` with attempts
remaining, in which case it retries with the simplified prompt. -/
theorem C1_amended :
    (∀ (resp : Nat → ApiResp) attempt r body, resp attempt = .ok body →
      stripEmptyB body = false → extractAnswer body = none →
      agirGo resp attempt (r + 2) = agirGo resp (attempt + 1) (r + 1)) ∧
    (∀ (resp : Nat → ApiResp) attempt body, resp attempt = .ok body →
      stripEmptyB body = false → extractAnswer body = none →
      agirGo resp attempt 1 = .exit1) ∧
    (∀ (resp : Nat → ApiResp) attempt r body, resp attempt = .ok body →
      stripEmptyB body = true →
      agirGo resp attempt (r + 2) = agirGo resp (attempt + 1) (r + 1)) ∧
    (∀ (resp : Nat → ApiResp) attempt body, resp attempt = .ok body →
      stripEmptyB body = true →
      agirGo resp attempt 1 = .exit1) ∧
    (∀ (model : String) (resp : Nat → GptResp) attempt r body,
      resp attempt = .ok body → stripEmptyB body = false → pyJsonLoads body = none →
      gptGo model resp attempt (r + 1) = .exit1) ∧
    (∀ (resp : Nat → GptResp) attempt r body, resp attempt = .ok body →
      stripEmptyB body = true →
      gptGo "o4-mini" resp attempt (r + 2) = gptGo "o4-mini" resp (attempt + 1) (r + 1)) ∧
    (∀ (model : String) (resp : Nat → GptResp) attempt r body, ¬model = "o4-mini" →
      resp attempt = .ok body → stripEmptyB body = true →
      gptGo model resp attempt (r + 1) = .exit1) := by
  refine ⟨?_, ?_, ?_, ?_, ?_, ?_, ?_⟩
  · intro resp attempt r body hb he hx
    simp [agirGo, hb, he, hx]
  · intro resp attempt body hb he hx
    simp [agirGo, hb, he, hx]
  · intro resp attempt r body hb he
    simp [agirGo, hb, he]
  · intro resp attempt body hb he
    simp [agirGo, hb, he]
  · intro model resp attempt r body hb he hl
    have hp : gptParsePhase body = .exit1 := by
      unfold gptParsePhase
      by_cases hbe : body.data.isEmpty = true
      · simp [hbe]
      · rw [if_neg (by simpa using hbe), hl]
    simp [gptGo, hb, he, hp]
  · intro resp attempt r body hb he
    simp [gptGo, hb, he]
  · intro model resp attempt r body hm hb he
    by_cases hr0 : r = 0
    · subst hr0
      simp [gptGo, hb, he]
    · simp [gptGo, hb, he, hr0, hm, gptParsePhase_empty he]

/-- Witness for the amended C1: the agir driver retries a non-empty body
whose extraction fails when an attempt remains. -/
theorem C1_amended_witness :
    stripEmptyB "nope" = false ∧ extractAnswer "nope" = none ∧
    agirGo (fun _ => ApiResp.ok "nope") 0 2 = agirGo (fun _ => ApiResp.ok "nope") 1 1 :=
  ⟨by decide, by decide,
   C1_amended.1 (fun _ => ApiResp.ok "nope") 0 0 "nope" rfl (by decide) (by decide)⟩

/-! ### Directory versioning (C8) -/

theorem decDec_append_digit (a : List Char) (d : Char) :
    decDec (a ++ [d]) = 10 * decDec a + (d.toNat - 48) := by
  unfold decDec
  rw [List.foldl_append]
  rfl

theorem char_digit_toNat {n : Nat} (h : n < 10) :
    (Char.ofNat (48 + n)).toNat = 48 + n := by
  interval_cases n <;> decide

theorem decDec_natDec (n : Nat) : decDec (natDec n) = n := by
  induction n using Nat.strong_induction_on with
  | _ n ih =>
    by_cases h : n < 10
    · unfold natDec
      rw [if_pos h]
      unfold decDec
      simp [char_digit_toNat h]
    · unfold natDec
      rw [if_neg h]
      rw [decDec_append_digit, ih (n / 10) (Nat.div_lt_self (by omega) (by omega)),
        char_digit_toNat (Nat.mod_lt _ (by omega))]
      omega

theorem natDec_ne_nil (n : Nat) : natDec n ≠ [] := by
  unfold natDec
  split <;> simp

theorem natDec_inj {a b : Nat} (h : natDec a = natDec b) : a = b := by
  have hd := congrArg decDec h
  rwa [decDec_natDec, decDec_natDec] at hd

theorem agirCandidate_inj : ∀ {v w : Nat}, 1 ≤ v → 1 ≤ w →
    agirCandidate v = agirCandidate w → v = w := by
  intro v w hv hw h
  unfold agirCandidate at h
  by_cases h1 : v = 1 <;> by_cases h2 : w = 1
  · omega
  · rw [if_pos h1, if_neg h2] at h
    have hlen := congrArg (fun s : String => s.data.length) h
    have hpos : 1 ≤ (natDec w).length :=
      List.length_pos.mpr (natDec_ne_nil w)
    simp [string_data_append] at hlen
  · rw [if_neg h1, if_pos h2] at h
    have hlen := congrArg (fun s : String => s.data.length) h
    have hpos : 1 ≤ (natDec v).length :=
      List.length_pos.mpr (natDec_ne_nil v)
    simp [string_data_append] at hlen
  · rw [if_neg h1, if_neg h2] at h
    have hd := congrArg String.data h
    simp only [string_data_append] at hd
    have := List.append_cancel_left hd
    exact natDec_inj this

theorem agirGoDir_spec (existing : List String) :
    ∀ fuel v, (∃ k, k < fuel ∧ agirCandidate (v + k) ∉ existing) →
    ∃ d, agirGoDir existing fuel v = some d ∧ d ∉ existing := by
  intro fuel
  induction fuel with
  | zero =>
    rintro v ⟨k, hk, _⟩
    omega
  | succ f ih =>
    rintro v ⟨k, hk, hfree⟩
    by_cases hmem : agirCandidate v ∈ existing
    · have hk0 : k ≠ 0 := by
        intro h0
        subst h0
        simp only [Nat.add_zero] at hfree
        exact hfree hmem
      have hnext := ih (v + 1) ⟨k - 1, by omega, by
        have heq : v + 1 + (k - 1) = v + k := by omega
        rw [heq]
        exact hfree⟩
      simpa [agirGoDir, hmem] using hnext
    · exact ⟨agirCandidate v, by simp [agirGoDir, hmem], hmem⟩

theorem exists_free_candidate (existing : List String) :
    ∃ k, k < existing.length + 1 ∧ agirCandidate (1 + k) ∉ existing := by
  by_contra hc
  push_neg at hc
  have hsub : (List.range (existing.length + 1)).map (fun k => agirCandidate (1 + k)) ⊆
      existing := by
    intro d hd
    simp only [List.mem_map, List.mem_range] at hd
    obtain ⟨k, hk, rfl⟩ := hd
    exact hc k hk
  have hnd : ((List.range (existing.length + 1)).map
      (fun k => agirCandidate (1 + k))).Nodup := by
    refine List.Nodup.map ?_ (List.nodup_range _)
    intro a b hab
    have := agirCandidate_inj (v := 1 + a) (w := 1 + b) (by omega) (by omega) hab
    omega
  have hlen := (List.subperm_of_subset hnd hsub).length_le
  simp only [List.length_map, List.length_range] at hlen
  omega

/-- Counterexample to C8: the GPT driver (`main.py`) performs no
existence check — with the default model name, a rerun whose prior run's
directory `results/gpt-4-1-nano` already exists chooses exactly that
existing location again (`mkdir` with `exist_ok=True`), so the chosen
output location equals an existing prior run's location. -/
theorem C8_counterexample :
    gptChooseDir ["results/gpt-4-1-nano"] (fun _ => none) = "results/gpt-4-1-nano" ∧
    gptChooseDir ["results/gpt-4-1-nano"] (fun _ => none) ∈ ["results/gpt-4-1-nano"] :=
  ⟨by decide, by decide⟩

/-- Claim C8 amended: the agir driver's versioned directory search always
returns a location that differs from every existing directory (increasing
`-v` suffixes, searched with sufficient fuel for the finite directory
list); the GPT driver instead uses a fixed location derived only from the
model name, never consulting the existing directories. -/
theorem C8_amended :
    (∀ existing : List String,
      ∃ d, agirGoDir existing (existing.length + 1) 1 = some d ∧ d ∉ existing) ∧
    (∀ (existing : List String) (env : String → Option String),
      gptChooseDir existing env =
        "results/" ++ pyReplaceDot ((env "GPT_MODEL").getD "gpt-4.1-nano")) := by
  constructor
  · intro existing
    exact agirGoDir_spec existing (existing.length + 1) 1 (exists_free_candidate existing)
  · intro existing env
    rfl

/-! ### Regex-recovery lemmas (C3) -/

theorem isPrefixOfB_append (a t : List Char) : isPrefixOfB a (a ++ t) = true := by
  induction a with
  | nil => rfl
  | cons x a ih => simp [isPrefixOfB, ih]

theorem hasInfixB_of_append (a w : List Char) : ∀ u : List Char, a ≠ [] →
    hasInfixB a (u ++ (a ++ w)) = true := by
  intro u
  induction u with
  | nil =>
    intro ha
    cases a with
    | nil => exact absurd rfl ha
    | cons x as =>
      show hasInfixB (x :: as) (x :: (as ++ w)) = true
      unfold hasInfixB
      have := isPrefixOfB_append (x :: as) w
      simp only [List.cons_append] at this
      simp [this]
  | cons b u ih =>
    intro ha
    show hasInfixB a (b :: (u ++ (a ++ w))) = true
    unfold hasInfixB
    rw [ih ha]
    simp

theorem dropThroughFirst_self (a t : List Char) (ha : a ≠ []) :
    dropThroughFirst a (a ++ t) = some t := by
  cases a with
  | nil => exact absurd rfl ha
  | cons x as =>
    show dropThroughFirst (x :: as) (x :: (as ++ t)) = some t
    unfold dropThroughFirst
    rw [if_pos ?hpre]
    case hpre =>
      have := isPrefixOfB_append (x :: as) t
      simpa only [List.cons_append] using this
    show some ((x :: (as ++ t)).drop (x :: as).length) = some t
    have hsh : (x :: (as ++ t)) = (x :: as) ++ t := by simp
    rw [hsh, List.drop_left]

theorem braceFree_all_ne_rbrace {l : List Char} (h : braceFreeB l = true) :
    l.all (fun ch => decide (ch ≠ '}')) = true := by
  unfold braceFreeB at h
  rw [List.all_eq_true] at h ⊢
  intro x hx
  have := h x hx
  simp only [Bool.and_eq_true, decide_eq_true_eq] at this ⊢
  exact this.2

theorem objMatchAt_good (inner tailcs t0 u w : List Char)
    (hall : inner.all (fun ch => decide (ch ≠ '}')) = true)
    (hi : inner = qEmotion ++ t0) (ht : t0 = u ++ (qCause ++ w)) :
    objMatchAt ('{' :: (inner ++ ('}' :: tailcs))) = some ('{' :: (inner ++ ['}'])) := by
  have hmem : ∀ a ∈ inner, (fun ch => decide (ch ≠ '}')) a := List.all_eq_true.mp hall
  have htk : (inner ++ ('}' :: tailcs)).takeWhile (fun ch => decide (ch ≠ '}')) = inner := by
    rw [List.takeWhile_append_of_pos hmem]
    simp
  have hdr : (inner ++ ('}' :: tailcs)).dropWhile (fun ch => decide (ch ≠ '}')) =
      '}' :: tailcs := by
    rw [List.dropWhile_append_of_pos hmem]
    simp
  have hdtf : dropThroughFirst qEmotion inner = some t0 := by
    rw [hi]
    exact dropThroughFirst_self qEmotion t0 (by decide)
  have hinf : hasInfixB qCause t0 = true := by
    rw [ht]
    exact hasInfixB_of_append qCause w u (by decide)
  simp only [objMatchAt, hdr, htk, hdtf, hinf, if_true]

theorem objSearch_good (pre inner tailcs t0 u w : List Char)
    (hpre : ∀ ch ∈ pre, ¬ch = '{')
    (hall : inner.all (fun ch => decide (ch ≠ '}')) = true)
    (hi : inner = qEmotion ++ t0) (ht : t0 = u ++ (qCause ++ w)) :
    objSearch (pre ++ ('{' :: (inner ++ ('}' :: tailcs)))) =
      some ('{' :: (inner ++ ['}'])) := by
  induction pre with
  | nil =>
    show objSearch ('{' :: (inner ++ ('}' :: tailcs))) = _
    unfold objSearch
    rw [objMatchAt_good inner tailcs t0 u w hall hi ht]
  | cons a pre ih =>
    have ha : ¬a = '{' := hpre a (by simp)
    show objSearch (a :: (pre ++ ('{' :: (inner ++ ('}' :: tailcs))))) = _
    unfold objSearch
    have hnone : objMatchAt (a :: (pre ++ ('{' :: (inner ++ ('}' :: tailcs))))) = none := by
      unfold objMatchAt
      simp [ha]
    rw [hnone]
    exact ih (fun x hx => hpre x (by simp [hx]))

theorem pyStripC_concat (p mid s : List Char) (c d : Char)
    (hp : p.dropWhile pyWsB ≠ []) (hd : pyWsB d = false) :
    pyStripC (p ++ ((c :: (mid ++ [d])) ++ s)) =
      p.dropWhile pyWsB ++ ((c :: (mid ++ [d])) ++ (s.reverse.dropWhile pyWsB).reverse) := by
  unfold pyStripC
  have h1 : (p ++ ((c :: (mid ++ [d])) ++ s)).dropWhile pyWsB =
      p.dropWhile pyWsB ++ ((c :: (mid ++ [d])) ++ s) := by
    rw [List.dropWhile_append]
    rw [if_neg (by simpa using hp)]
  rw [h1]
  have h2 : (p.dropWhile pyWsB ++ ((c :: (mid ++ [d])) ++ s)).reverse =
      s.reverse ++ (d :: (mid.reverse ++ (c :: (p.dropWhile pyWsB).reverse))) := by
    simp
  rw [h2, dropWhile_append_head_false _ _ _ hd]
  simp

theorem serValC_emObj (e c : String) :
    serValC (emObj e c) = '{' :: (emInner e c ++ ['}']) := by
  simp [emObj, serValC, serKVC, serMembersC, emInner]

theorem emInner_split1 (e c : String) :
    emInner e c = qEmotion ++ (':' :: ' ' :: '"' ::
      (e.data ++ ('"' :: ',' :: ' ' :: '"' :: 'c' :: 'a' :: 'u' :: 's' :: 'e' :: '"' ::
        ':' :: ' ' :: '"' :: (c.data ++ ['"'])))) := by
  simp [emInner, qEmotion]

theorem emInner_split2 (e c : String) :
    (':' :: ' ' :: '"' ::
      (e.data ++ ('"' :: ',' :: ' ' :: '"' :: 'c' :: 'a' :: 'u' :: 's' :: 'e' :: '"' ::
        ':' :: ' ' :: '"' :: (c.data ++ ['"'])))) =
    (':' :: ' ' :: '"' :: (e.data ++ ['"', ',', ' '])) ++
      (qCause ++ (':' :: ' ' :: '"' :: (c.data ++ ['"']))) := by
  simp [qCause]

theorem emInner_all_ne_rbrace (e c : String)
    (hbe : braceFreeB e.data = true) (hbc : braceFreeB c.data = true) :
    (emInner e c).all (fun ch => decide (ch ≠ '}')) = true := by
  have h1 : ∀ x ∈ e.data, ¬x = '}' := by
    intro x hx
    have hz := List.all_eq_true.mp (braceFree_all_ne_rbrace hbe) x hx
    simpa using hz
  have h2 : ∀ x ∈ c.data, ¬x = '}' := by
    intro x hx
    have hz := List.all_eq_true.mp (braceFree_all_ne_rbrace hbc) x hx
    simpa using hz
  simp [emInner, List.all_cons, List.all_append]
  exact ⟨h1, h2⟩

/-- Claim C3 amended: extraction of commentary-wrapped object text agrees
with extraction of the bare object text provided the prefix contains no
`\x7b` and at least one non-whitespace character, the object is exactly
`\x7b"emotion": e, "cause": c\x7d` with brace-free field values, and the
text is in the modelled escape-free fragment; in general the equivalence
fails (see the counterexample, where the prefix is a lone `\x7b`). -/
theorem C3_amended (e c p s : String)
    (hok : jvalOkB (emObj e c) = true)
    (hbe : braceFreeB e.data = true) (hbc : braceFreeB c.data = true)
    (hlp : lbraceFreeB p.data = true)
    (hpn : p.data.dropWhile pyWsB ≠ []) :
    extractAnswer (p ++ serStr (emObj e c) ++ s) = some (emObj e c) ∧
    extractAnswer (serStr (emObj e c)) = some (emObj e c) := by
  refine ⟨?_, extract_ser_obj hok⟩
  have hser := serValC_emObj e c
  have hdata : (p ++ serStr (emObj e c) ++ s).data =
      p.data ++ (serValC (emObj e c) ++ s.data) := by
    simp only [string_data_append, List.append_assoc]
    rfl
  have hstrip : pyStripC (p ++ serStr (emObj e c) ++ s).data =
      p.data.dropWhile pyWsB ++ (('{' :: (emInner e c ++ ['}'])) ++
        (s.data.reverse.dropWhile pyWsB).reverse) := by
    rw [hdata, hser]
    exact pyStripC_concat p.data (emInner e c) s.data '{' '}' hpn (by decide)
  obtain ⟨q, ps, hq⟩ : ∃ q ps, p.data.dropWhile pyWsB = q :: ps := by
    cases hpd : p.data.dropWhile pyWsB with
    | nil => exact absurd hpd hpn
    | cons q ps => exact ⟨q, ps, rfl⟩
  have hqp : ∀ ch ∈ p.data.dropWhile pyWsB, ¬ch = '{' := by
    intro ch hch
    have hmem : ch ∈ p.data := (List.dropWhile_sublist pyWsB).subset hch
    have hz := List.all_eq_true.mp hlp ch hmem
    simpa using hz
  have hqne : ¬q = '{' := hqp q (by rw [hq]; simp)
  have hhead : headIs (pyStripC (p ++ serStr (emObj e c) ++ s).data) '{' = false := by
    rw [hstrip, hq]
    show headIs (q :: (ps ++ _)) '{' = false
    simp [headIs, hqne]
  have hsearch : objSearch (pyStripC (p ++ serStr (emObj e c) ++ s).data) =
      some (serValC (emObj e c)) := by
    rw [hstrip, hq, hser]
    have hassoc : (q :: ps) ++ (('{' :: (emInner e c ++ ['}'])) ++
        (s.data.reverse.dropWhile pyWsB).reverse) =
        (q :: ps) ++ ('{' :: (emInner e c ++
          ('}' :: (s.data.reverse.dropWhile pyWsB).reverse))) := by
      simp
    rw [hassoc]
    exact objSearch_good (q :: ps) (emInner e c)
      ((s.data.reverse.dropWhile pyWsB).reverse)
      (':' :: ' ' :: '"' ::
        (e.data ++ ('"' :: ',' :: ' ' :: '"' :: 'c' :: 'a' :: 'u' :: 's' :: 'e' :: '"' ::
          ':' :: ' ' :: '"' :: (c.data ++ ['"']))))
      (':' :: ' ' :: '"' :: (e.data ++ ['"', ',', ' ']))
      (':' :: ' ' :: '"' :: (c.data ++ ['"']))
      (fun x hx => hqp x (hq ▸ hx))
      (emInner_all_ne_rbrace e c hbe hbc)
      (emInner_split1 e c) (emInner_split2 e c)
  have hload := pyJsonLoadsC_ser (v := emObj e c) hok
  simp only [extractAnswer, hhead, Bool.false_and, Bool.false_eq_true, if_false,
    hsearch, hload]

/-- Witness for the amended C3: ordinary commentary around a valid object
does not change the extraction result. -/
theorem C3_amended_witness :
    extractAnswer ("Answer: " ++ serStr (emObj "joy" "ok") ++ " extra.") =
      some (emObj "joy" "ok") ∧
    extractAnswer (serStr (emObj "joy" "ok")) = some (emObj "joy" "ok") :=
  C3_amended "joy" "ok" "Answer: " " extra." (by decide) (by decide) (by decide)
    (by decide) (by decide)

/-- Counterexample to C3: with commentary prefix `\x7b` (a lone brace) and
an empty suffix around a valid object, the stripped text is brace-delimited
but is not valid JSON, so the whole-text parse raises `JSONDecodeError` and
extraction fails, while extraction of the bare object text succeeds — the
two results differ. -/
theorem C3_counterexample :
    extractAnswer ("\x7b" ++ serStr (emObj "a" "b") ++ "") = none ∧
    extractAnswer (serStr (emObj "a" "b")) = some (emObj "a" "b") ∧
    extractAnswer ("\x7b" ++ serStr (emObj "a" "b") ++ "") ≠
      extractAnswer (serStr (emObj "a" "b")) :=
  ⟨by decide, by decide, by decide⟩
